import Mathlib

/-!
Verification development for the Desk_Calendar repository.

The Python sources (`data_manager.py`, `reminder_manager.py`) are shallowly
embedded below.  Naive `datetime` values are modelled as `Int` seconds since
the epoch 1970-01-01T00:00:00 (microseconds do not play a role in any claim:
`replace(second=0, microsecond=0)` acts on this encoding exactly as
`truncMin`).  `datetime.date` values are modelled as `Int` days since the
epoch.  Gregorian-calendar conversions mirror what Python's `datetime`
computes for the concrete dates used in the proofs.
-/

namespace DeskCalendar

/-- Python `dt.replace(second=0, microsecond=0)`: truncate a timestamp to
minute precision. -/
def truncMin (t : Int) : Int := t - t % 60

/-- Python `dt.date()`: the day (days since 1970-01-01) a timestamp falls on. -/
def dateOf (t : Int) : Int := t / 86400

/-- Seconds into the day of a timestamp (its time-of-day). -/
def timeOfDay (t : Int) : Int := t % 86400

/-- Python `date.weekday()`: Monday = 0 … Sunday = 6.  1970-01-01 was a
Thursday (weekday 3). -/
def weekday (d : Int) : Int := (d + 3) % 7

/-- Days since 1970-01-01 of the Gregorian date y-m-d (civil-from-days
inverse, standard era-based algorithm). -/
def daysFromCivil (y m d : Int) : Int :=
  let y' := if m ≤ 2 then y - 1 else y
  let era := y' / 400
  let yoe := y' - era * 400
  let mp := if 2 < m then m - 3 else m + 9
  let doy := (153 * mp + 2) / 5 + d - 1
  let doe := yoe * 365 + yoe / 4 - yoe / 100 + doy
  era * 146097 + doe - 719468

/-- Gregorian (year, month, day) of a day count since 1970-01-01. -/
def civilFromDays (z : Int) : Int × Int × Int :=
  let z' := z + 719468
  let era := z' / 146097
  let doe := z' - era * 146097
  let yoe := (doe - doe / 1460 + doe / 36524 - doe / 146096) / 365
  let y0 := yoe + era * 400
  let doy := doe - (365 * yoe + yoe / 4 - yoe / 100)
  let mp := (5 * doy + 2) / 153
  let d := doy - (153 * mp + 2) / 5 + 1
  let m := if mp < 10 then mp + 3 else mp - 9
  (if m ≤ 2 then y0 + 1 else y0, m, d)

/-- Python `date.day` for a day count. -/
def dayOfMonth (z : Int) : Int := (civilFromDays z).2.2

/-- Python `date.month` for a day count. -/
def monthOf (z : Int) : Int := (civilFromDays z).2.1

/-- Build a timestamp from a civil date and a time of day. -/
def mkDT (y m d hh mi : Int) : Int :=
  daysFromCivil y m d * 86400 + hh * 3600 + mi * 60

/-- Build a timestamp with a seconds component (for sub-minute fidelity). -/
def mkDTs (y m d hh mi ss : Int) : Int := mkDT y m d hh mi + ss

/-- The domain model `Event` of `data_manager.py`.  `uid` is `Optional[str]`
in Python (always a uuid4 string when the object passes through
`Event.__init__`, but reachable as `None` via `copy.deepcopy` in
`ReminderManager.snooze`); uuid strings are modelled by the index of the
uuid4 draw, so `uid : Option Nat`. -/
structure Event where
  id : Int
  uid : Option Nat
  title : String
  start_time : Int
  end_time : Int
  description : String
  priority : String
  repeat_rule : String
  reminder_enabled : Bool
  reminder_type : String
  advance_value : Int
  advance_unit : String
  absolute_time : Option Int
  finished : Bool
  last_reminded_time : Option Int
deriving DecidableEq, Repr

/-- All of an event's timestamps are at minute precision (as the persisted
storage forms guarantee). -/
def minuteAligned (e : Event) : Prop :=
  truncMin e.start_time = e.start_time ∧
  truncMin e.end_time = e.end_time ∧
  e.absolute_time.map truncMin = e.absolute_time ∧
  e.last_reminded_time.map truncMin = e.last_reminded_time

instance (e : Event) : Decidable (minuteAligned e) := by
  unfold minuteAligned; infer_instance

/-! ## Relational-row codec (`_event_to_tuple` / `_row_to_event`)

`Event._format_dt` writes `isoformat(timespec='minutes')`, i.e. the
minute-truncated value, `NULL` for `None`; `Event._parse_dt` reads it back.
The 15-column row is modelled with timestamps already decoded (ISO text at
minute precision is in order-preserving bijection with truncated values),
and booleans as the stored 0/1 integers. -/

structure EventRow where
  id : Int
  uid : Option Nat
  title : String
  start_time : Option Int
  end_time : Option Int
  description : String
  priority : String
  repeat_rule : String
  reminder_enabled : Int
  reminder_type : String
  advance_value : Int
  advance_unit : String
  absolute_time : Option Int
  finished : Int
  last_reminded_time : Option Int
deriving DecidableEq, Repr

/-- `DataManager._event_to_tuple` (the 14 value columns), paired with the
row id the database assigns (`id` is not part of the tuple). -/
def eventToTuple (e : Event) (rowId : Int) : EventRow :=
  { id := rowId
    uid := e.uid
    title := e.title
    start_time := some (truncMin e.start_time)
    end_time := some (truncMin e.end_time)
    description := e.description
    priority := e.priority
    repeat_rule := e.repeat_rule
    reminder_enabled := if e.reminder_enabled then 1 else 0
    reminder_type := e.reminder_type
    advance_value := e.advance_value
    advance_unit := e.advance_unit
    absolute_time := e.absolute_time.map truncMin
    finished := if e.finished then 1 else 0
    last_reminded_time := e.last_reminded_time.map truncMin }

/-- `DataManager._row_to_event`.  The row values go through `Event.__init__`,
which replaces a falsy `uid` by a fresh uuid4 draw (`fresh`).  Rows written
by `_event_to_tuple` always carry non-NULL start/end times; a NULL there
would make the Python attribute `None`, which no later code path tolerates,
so it is defaulted. -/
def rowToEvent (r : EventRow) (fresh : Nat) : Event :=
  { id := r.id
    uid := some (r.uid.getD fresh)
    title := r.title
    start_time := r.start_time.getD 0
    end_time := r.end_time.getD 0
    description := r.description
    priority := r.priority
    repeat_rule := r.repeat_rule
    reminder_enabled := r.reminder_enabled ≠ 0
    reminder_type := r.reminder_type
    advance_value := r.advance_value
    advance_unit := r.advance_unit
    absolute_time := r.absolute_time
    finished := r.finished ≠ 0
    last_reminded_time := r.last_reminded_time }

/-! ## iCalendar codec (`to_ical_component` / `from_ical_component`)

The component's text properties are modelled with their decoded payloads:
`X-REMINDER-ADV-VAL` is written as `str(int)` and read with `int(str(…))`
(a bijection on integers), the `X-*` timestamps are written with
`_format_dt` (minute truncation) and read with `_parse_dt`.  `DTSTART` /
`DTEND` are naive `vDatetime`s and keep full second precision.  `uid` is
written from the event's (possibly `None`) uid attribute and read through
`Event.__init__` (falsy uid ⇒ fresh uuid4 draw, modelled by `fresh`).
`priority` has no property in the component. -/

structure ICalComp where
  uid : Option Nat
  summary : String
  descr : String
  dtstart : Int
  dtend : Int
  freq : Option String
  byday : Option String
  xFinished : String
  xReminderEnabled : String
  xReminderType : String
  xAdvVal : Int
  xAdvUnit : String
  xAbsTime : Option Int
  xLastReminded : Option Int
deriving DecidableEq, Repr

/-- Python weekday → BYDAY token used by `to_ical_component`. -/
def bydayToken (w : Int) : String :=
  if w = 0 then "MO" else if w = 1 then "TU" else if w = 2 then "WE"
  else if w = 3 then "TH" else if w = 4 then "FR" else if w = 5 then "SA"
  else "SU"

/-- `Event.to_ical_component`. -/
def toIcalComponent (e : Event) : ICalComp :=
  let freq :=
    if e.repeat_rule = "每日" then some "DAILY"
    else if e.repeat_rule = "每周" then some "WEEKLY"
    else if e.repeat_rule = "每月" then some "MONTHLY"
    else if e.repeat_rule = "每年" then some "YEARLY"
    else none
  { uid := e.uid
    summary := e.title
    descr := e.description
    dtstart := e.start_time
    dtend := e.end_time
    freq := freq
    byday := if freq = some "WEEKLY"
             then some (bydayToken (weekday (dateOf e.start_time))) else none
    xFinished := if e.finished then "TRUE" else "FALSE"
    xReminderEnabled := if e.reminder_enabled then "TRUE" else "FALSE"
    xReminderType := e.reminder_type
    xAdvVal := e.advance_value
    xAdvUnit := e.advance_unit
    xAbsTime := e.absolute_time.map truncMin
    xLastReminded := e.last_reminded_time.map truncMin }

/-- `Event.from_ical_component` (BYDAY is ignored on parse; `priority` is
hard-coded to `"中"`; the `internal_id` argument becomes `id`). -/
def fromIcalComponent (c : ICalComp) (internalId : Int) (fresh : Nat) : Event :=
  { id := internalId
    uid := some (c.uid.getD fresh)
    title := c.summary
    start_time := c.dtstart
    end_time := c.dtend
    description := c.descr
    priority := "中"
    repeat_rule :=
      if c.freq = some "DAILY" then "每日"
      else if c.freq = some "WEEKLY" then "每周"
      else if c.freq = some "MONTHLY" then "每月"
      else if c.freq = some "YEARLY" then "每年"
      else "无"
    reminder_enabled := c.xReminderEnabled = "TRUE"
    reminder_type := c.xReminderType
    advance_value := c.xAdvVal
    advance_unit := c.xAdvUnit
    absolute_time := c.xAbsTime
    finished := c.xFinished = "TRUE"
    last_reminded_time := c.xLastReminded }

/-- Claim C1's comparison, written from the spec's words: two events agree on
every field, comparing timestamps at minute precision. -/
def eqUpToMinute (a b : Event) : Prop :=
  a.id = b.id ∧ a.uid = b.uid ∧ a.title = b.title ∧
  truncMin a.start_time = truncMin b.start_time ∧
  truncMin a.end_time = truncMin b.end_time ∧
  a.description = b.description ∧ a.priority = b.priority ∧
  a.repeat_rule = b.repeat_rule ∧ a.reminder_enabled = b.reminder_enabled ∧
  a.reminder_type = b.reminder_type ∧ a.advance_value = b.advance_value ∧
  a.advance_unit = b.advance_unit ∧
  a.absolute_time.map truncMin = b.absolute_time.map truncMin ∧
  a.finished = b.finished ∧
  a.last_reminded_time.map truncMin = b.last_reminded_time.map truncMin

instance (a b : Event) : Decidable (eqUpToMinute a b) := by
  unfold eqUpToMinute; infer_instance

/-! ## Occurrence expander (`DataManager.get_events_between_dates`) -/

/-- `DataManager._is_occurring_on` (arguments are day counts). -/
def isOccurringOn (e : Event) (target start : Int) : Bool :=
  if target < start then false
  else if e.repeat_rule = "无" then target = start
  else if e.repeat_rule = "每日" then true
  else if e.repeat_rule = "每周" then weekday target = weekday start
  else if e.repeat_rule = "每月" then dayOfMonth target = dayOfMonth start
  else if e.repeat_rule = "每年" then
    monthOf target = monthOf start ∧ dayOfMonth target = dayOfMonth start
  else false

/-- The virtual copy `Event.from_dict(e.to_dict())` shifted by `dd` days:
`to_dict`/`from_dict` round-trip every field but pass all timestamps through
`_format_dt`/`_parse_dt` (minute truncation), and `from_dict` runs
`Event.__init__`, which replaces a falsy (`None`) uid by a fresh uuid4 draw
— modelled by `fresh`; the caller then restores `id` and adds the day delta
to `start_time`/`end_time`. -/
def virtualOf (fresh : Nat) (e : Event) (dd : Int) : Event :=
  { e with
    uid := some (e.uid.getD fresh)
    start_time := truncMin e.start_time + dd * 86400
    end_time := truncMin e.end_time + dd * 86400
    absolute_time := e.absolute_time.map truncMin
    last_reminded_time := e.last_reminded_time.map truncMin }

/-- An event whose start/end are shifted by `dd` days (the spec's notion of a
"day-shifted" occurrence). -/
def shiftedBy (e : Event) (dd : Int) : Event :=
  { e with
    start_time := e.start_time + dd * 86400
    end_time := e.end_time + dd * 86400 }

/-- The occurrence (if any) that event `e` contributes to the bucket of day
`d` in `get_events_between_dates s endd`, for `s ≤ d ≤ endd`.  The Python
loop appends at most one item per (event, day): for `repeat_rule == "无"`
either the event in its own start-date bucket (when that date is in range)
or — only when the start date is *not* in range — the unmodified event in
its absolute reminder's bucket; for recurring rules the origin object on the
anchor day and a day-shifted virtual copy on every other qualifying day.
(The `e not in result[...]` identity check in the source is vacuous here
because an event object is appended to the reminder bucket only when it was
appended nowhere else.  `fresh` is the uuid4 draw of this (event, day)
pair's `from_dict` call, used only when a virtual copy of a uid-less event
is synthesized.) -/
def contributionOn (fresh : Nat) (e : Event) (s endd d : Int) : Option Event :=
  let eStart := dateOf e.start_time
  if e.repeat_rule = "无" then
    let inRange := s ≤ eStart ∧ eStart ≤ endd
    if eStart = d ∧ inRange then some e
    else
      match e.absolute_time with
      | some at_ =>
          if e.reminder_type = "absolute" ∧ s ≤ dateOf at_ ∧ dateOf at_ ≤ endd
             ∧ ¬ (s ≤ eStart ∧ eStart ≤ endd) ∧ dateOf at_ = d
          then some e else none
      | none => none
  else
    if endd < eStart then none
    else if isOccurringOn e d eStart then
      if d = eStart then some e else some (virtualOf fresh e (d - eStart))
    else none

/-- Day counts `s, s+1, …, s+n`. -/
def dateRangeAux (s : Int) : Nat → List Int
  | 0 => [s]
  | n + 1 => s :: dateRangeAux (s + 1) n

/-- The keys of the result dictionary: every day of `[s, e]` in order. -/
def dateRange (s e : Int) : List Int :=
  if e < s then [] else dateRangeAux s (e - s).toNat

/-- `PRIORITY_MAP.get(priority, 1)`. -/
def priorityRank (p : String) : Int :=
  if p = "高" then 0 else if p = "低" then 2 else 1

/-- The sort key `(PRIORITY_MAP.get(x.priority, 1), x.start_time)` compared
lexicographically (strictly, for stable insertion). -/
def sortKeyLt (a b : Event) : Bool :=
  priorityRank a.priority < priorityRank b.priority ∨
  (priorityRank a.priority = priorityRank b.priority ∧ a.start_time < b.start_time)

/-- Stable insertion used by `sortEvents`: `x` goes before the first element
strictly greater than it, so ties keep their original order (Python's
`list.sort` is stable). -/
def insertEv (x : Event) : List Event → List Event
  | [] => [x]
  | y :: ys => if sortKeyLt y x then y :: insertEv x ys else x :: y :: ys

/-- The per-bucket `result[date_key].sort(key=…)`. -/
def sortEvents : List Event → List Event
  | [] => []
  | x :: xs => insertEv x (sortEvents xs)

/-- The shared expansion of `get_events_between_dates`: one `(day, bucket)`
pair per day of the range, each bucket holding the source events'
contributions in source order, sorted by `(priority rank, start_time)`.
`freshSup` supplies the uuid4 draw each (event, day) virtual copy would
make; the code's draws are nondeterministic, so every statement about the
expansion quantifies over the supply. -/
def expandEvents (freshSup : Event → Int → Nat) (events : List Event)
    (s e : Int) : List (Int × List Event) :=
  (dateRange s e).map fun d =>
    (d, sortEvents (events.filterMap fun ev => contributionOn (freshSup ev d) ev s e d))

/-- The SQLite pre-filter of `get_events_between_dates`.  The SQL comparisons
act on ISO-8601 minute-precision text (`"YYYY-MM-DDTHH:MM"`), whose
lexicographic order coincides with chronological order, so they are modelled
on the minute-truncated values; a NULL timestamp compares as unknown, i.e.
the disjunct is false. -/
def sqlFilter (s e : Int) (ev : Event) : Bool :=
  decide (ev.repeat_rule ≠ "无") ||
  (decide (s * 86400 ≤ truncMin ev.start_time) &&
    decide (truncMin ev.start_time ≤ e * 86400 + 86340)) ||
  (decide (ev.reminder_type = "absolute") &&
    match ev.absolute_time with
    | some t => decide (s * 86400 ≤ truncMin t) &&
        decide (truncMin t ≤ e * 86400 + 86340)
    | none => false)

/-- One SQLite row read back: `_row_to_event (_event_to_tuple e)` as a pure
function of the event (`fresh` models the uuid4 draw the constructor makes
when the stored uid is NULL; the row keeps the event's id). -/
def rowRoundtrip (e : Event) (fresh : Nat) : Event :=
  rowToEvent (eventToTuple e e.id) fresh

/-- `get_events_between_dates` in file (ics) mode: expansion over the whole
in-memory cache. -/
def icsQuery (freshSup : Event → Int → Nat) (events : List Event) (s e : Int) :
    List (Int × List Event) :=
  expandEvents freshSup events s e

/-- `get_events_between_dates` in sqlite mode: SQL pre-filter, rows parsed
back to events (in rowid = insertion order, matching the cache order), then
the same shared expansion (with its own, independent uuid4 draws). -/
def sqliteQuery (freshSup : Event → Int → Nat) (events : List Event)
    (s e : Int) (fresh : Nat) : List (Int × List Event) :=
  expandEvents freshSup ((events.filter (sqlFilter s e)).map (rowRoundtrip · fresh)) s e

/-! ## Reminder scheduler (`reminder_manager.py`) -/

/-- Python `str.lower()` restricted to the ASCII case mapping (the unit
strings it is applied to are ASCII). -/
def pyLower (s : String) : String := String.mk (s.data.map Char.toLower)

/-- `ReminderManager._calc_trigger_dt`.  Python's `e.advance_value or 30`
replaces a falsy (zero) value by 30, `(e.advance_unit or "minutes").lower()`
replaces an empty unit by `"minutes"`; an unrecognized unit falls through to
minutes. -/
def calcTriggerDt (e : Event) : Option Int :=
  if ¬ e.reminder_enabled then none
  else if e.reminder_type = "absolute" then e.absolute_time
  else
    let v : Int := if e.advance_value = 0 then 30 else e.advance_value
    let unit := pyLower (if e.advance_unit = "" then "minutes" else e.advance_unit)
    let delta : Int :=
      if unit = "hours" then v * 3600
      else if unit = "days" then v * 86400
      else v * 60
    some (e.start_time - delta)

/-- The per-occurrence decision of `ReminderManager.check_reminders` at tick
time `now` (the tick computes `now = datetime.now().replace(second=0,
microsecond=0)`): skip finished occurrences, compute and minute-truncate the
trigger instant, fire iff it has passed and `last_reminded_time` is absent
or earlier than it. -/
def shouldRemind (now : Int) (e : Event) : Bool :=
  if e.finished then false
  else
    match calcTriggerDt e with
    | none => false
    | some t0 =>
      let trig := truncMin t0
      if now < trig then false
      else
        match e.last_reminded_time with
        | none => true
        | some lrt => lrt < trig

/-- Claim C2's trigger instant, written from the spec's words: the absolute
time for absolute reminders, otherwise `start_time` minus
`advance_value × advance_unit` (unit ∈ minutes/hours/days). -/
def claimTriggerC2 (e : Event) : Option Int :=
  if e.reminder_type = "absolute" then e.absolute_time
  else
    let delta : Int :=
      if e.advance_unit = "hours" then e.advance_value * 3600
      else if e.advance_unit = "days" then e.advance_value * 86400
      else e.advance_value * 60
    some (e.start_time - delta)

/-- Claim C2 as stated, at one occurrence: the reminder fires iff
`now ≥ trigger` (trigger truncated to minute precision) and
`last_reminded_time` is absent or `< trigger`. -/
def claimC2Holds (now : Int) (e : Event) : Prop :=
  shouldRemind now e = true ↔
    ∃ t0, claimTriggerC2 e = some t0 ∧ truncMin t0 ≤ now ∧
      (e.last_reminded_time = none ∨
        ∃ l, e.last_reminded_time = some l ∧ l < truncMin t0)

/-! ## Payload update (`Event.update_from_payload`) -/

/-- A dialog payload; timestamp entries model the result of
`Event.dt_from_iso` on the payload string (`none` = key absent or
unparseable — Python treats both as "no new value").  An absent
`"reminder"` sub-dict reads as `{}`, i.e. all-`none` reminder entries. -/
structure Payload where
  title : Option String
  start_time : Option Int
  end_time : Option Int
  description : Option String
  priority : Option String
  repeat_rule : Option String
  finished : Option Bool
  reminder_enabled : Option Bool
  reminder_type : Option String
  advance_value : Option Int
  advance_unit : Option String
  absolute_time : Option Int
deriving DecidableEq, Repr

/-- `Event.update_from_payload`.  Mirrors the source's order: the reset on a
changed `start_time` happens first, the reset on enabling the reminder after
the field assignments; `absolute_time` is overwritten unconditionally. -/
def updateFromPayload (e : Event) (p : Payload) : Event :=
  let lrt1 :=
    match p.start_time with
    | some st => if st ≠ e.start_time then none else e.last_reminded_time
    | none => e.last_reminded_time
  let newEnabled := p.reminder_enabled.getD e.reminder_enabled
  let lrt2 := if newEnabled ∧ ¬ e.reminder_enabled then none else lrt1
  { e with
    title := p.title.getD e.title
    start_time := p.start_time.getD e.start_time
    end_time := p.end_time.getD e.end_time
    description := p.description.getD e.description
    priority := p.priority.getD e.priority
    repeat_rule := p.repeat_rule.getD e.repeat_rule
    finished := p.finished.getD e.finished
    reminder_enabled := newEnabled
    reminder_type := p.reminder_type.getD e.reminder_type
    advance_value := p.advance_value.getD e.advance_value
    advance_unit := p.advance_unit.getD e.advance_unit
    absolute_time := p.absolute_time
    last_reminded_time := lrt2 }

/-! ## The store (`DataManager` state) and its operations

`events` is the in-memory cache, kept in sync with the active backend;
`nextId` is the file-mode id counter `_next_event_id`; `dbSeq` is the
SQLite `AUTOINCREMENT` sequence.  uuid4 draws never collide with any uid in
the store; this is modelled by drawing `1 + max` of the assigned uids. -/

structure Store where
  events : List Event
  nextId : Int
  dbSeq : Int
  mode : String
deriving DecidableEq, Repr

/-- The assigned (non-`None`) uids of a list of stored events. -/
def uids (l : List Event) : List Nat := l.filterMap Event.uid

/-- A fresh uuid4 draw against the current store: distinct from every
assigned uid. -/
def freshUid (s : Store) : Nat := (uids s.events).foldr max 0 + 1

/-- `DataManager.add_event`: sqlite mode inserts and takes `lastrowid`,
file mode assigns `_next_event_id` and bumps it; either way the event is
appended to the cache. -/
def addEvent (s : Store) (e : Event) : Store × Int :=
  if s.mode = "sqlite" then
    let nid := s.dbSeq + 1
    ({ s with events := s.events ++ [{ e with id := nid }], dbSeq := nid }, nid)
  else
    let nid := s.nextId
    ({ s with events := s.events ++ [{ e with id := nid }], nextId := nid + 1 }, nid)

/-- The UI's create path (`CalendarWindow._save_dialog_event`): a new `Event`
built by `Event.__init__` — which draws a fresh uuid4 for `uid` — is handed
to `add_event`.  `base` carries the dialog payload's field values. -/
def opAdd (s : Store) (base : Event) : Store :=
  (addEvent s { base with uid := some (freshUid s) }).1

/-- Apply `g` to the first event whose id matches, leaving the rest alone:
the shared cache-update shape of `get_event` (first match, mutated by
reference) followed by `update_event` (whose replacement loop `break`s at
the first match, data_manager.py:518-525). -/
def replaceFirst (g : Event → Event) (eid : Int) : List Event → List Event
  | [] => []
  | x :: rest =>
    if x.id = eid then g x :: rest else x :: replaceFirst g eid rest

/-- The UI's edit path (`CalendarWindow._edit_event`): look the event up by
id (`get_event` returns the first match), apply `update_from_payload` to
that object in place, store it back via `update_event` (which also replaces
only the first match). -/
def opUpdate (s : Store) (eid : Int) (p : Payload) : Store :=
  { s with events := replaceFirst (fun x => updateFromPayload x p) eid s.events }

/-- `DataManager.mark_event_as_finished`: `get_event` + in-place flag set +
`update_event`, all acting on the first id match. -/
def opMarkFinished (s : Store) (eid : Int) (fin : Bool) : Store :=
  { s with events := replaceFirst (fun x => { x with finished := fin }) eid s.events }

/-- `DataManager.delete_event`. -/
def opDelete (s : Store) (eid : Int) : Store :=
  { s with events := s.events.filter fun x => x.id ≠ eid }

/-- `DataManager.update_event` with a caller-supplied event object: the
first cache entry with matching id is replaced (the loop `break`s); file
mode reports `False` when no entry matched, sqlite mode delegates to
`_update_event_db`, which returns `True` unconditionally (an
`UPDATE … WHERE id=?` that matches no row is a silent no-op). -/
def updateEventOp (s : Store) (e : Event) : Store × Bool :=
  let found := s.events.any fun x => x.id = e.id
  let events' := replaceFirst (fun _ => e) e.id s.events
  if s.mode = "sqlite" then ({ s with events := events' }, true)
  else if found then ({ s with events := events' }, true)
  else (s, false)

/-- `ReminderManager.snooze`.  For a recurring event a deep copy becomes a
one-shot shadow (`id` reassigned by `add_event`, `uid` set to `None` — the
copy never passes through `Event.__init__`, so no fresh uuid is drawn),
and the original — the first cache entry with the id, the object
`get_event` returned — is stamped with `last_reminded_time = now`; a
non-recurring event is flipped to an absolute reminder in place.  Both
`datetime.now()` calls of the source are modelled by the single instant
`now`. -/
def snoozeOp (s : Store) (eid : Int) (minutes : Int) (now : Int) : Store :=
  match s.events.find? (fun x => x.id = eid) with
  | none => s
  | some e =>
    if e.repeat_rule ≠ "无" then
      let shadow : Event :=
        { e with
          id := 0
          uid := none
          title := e.title ++ " (稍后提醒)"
          repeat_rule := "无"
          reminder_enabled := true
          reminder_type := "absolute"
          absolute_time := some (truncMin now + minutes * 60) }
      let s1 := (addEvent s shadow).1
      { s1 with
        events :=
          replaceFirst (fun x => { x with last_reminded_time := some now })
            eid s1.events }
    else
      { s with
        events :=
          replaceFirst
            (fun x =>
              { x with
                reminder_enabled := true
                reminder_type := "absolute"
                absolute_time := some (truncMin now + minutes * 60)
                last_reminded_time := none })
            eid s.events }

/-- Reassign fresh uuids to `None` uids, as `_row_to_event` does when the
sqlite reload passes a NULL uid to `Event.__init__`; `c` is the next draw. -/
def regenUids (c : Nat) : List Event → List Event
  | [] => []
  | e :: rest =>
    match e.uid with
    | some _ => e :: regenUids c rest
    | none => { e with uid := some c } :: regenUids (c + 1) rest

/-- Apply an index-threading function along a list (used for per-row id
reassignment during migration reloads). -/
def mapWithId (f : Int → Event → Event) : Int → List Event → List Event
  | _, [] => []
  | i, e :: rest => f i e :: mapWithId f (i + 1) rest

/-- The model value of the literal uid string `"None"`: `to_ical_component`
calls `add('uid', None)` on a uid-less shadow event and icalendar's
`vText(None)` serializes the Python `str(None)`, i.e. the four-character
string `"None"`, which `from_ical_component` then reads back as an
ordinary (truthy) uid.  uuid4 draws are modelled as values `≥ 1`
(`freshUid` is `max + 1`), so the marker never aliases a drawn uuid, just
as the string `"None"` never equals a uuid string. -/
def noneUidMarker : Nat := 0

/-- `DataManager.switch_storage_mode` plus the `reload_events` that follows,
at cache level.  Neither direction recalculates `_next_event_id for the
file backend (`_recalculate_next_id` runs only in `__init__`), so `nextId`
can go stale.  ics→sqlite: rows are reinserted (ids reassigned by
`AUTOINCREMENT`) and read back, which regenerates NULL uids via
`Event.__init__` and truncates timestamps to the stored minute precision.
sqlite→ics: the cache is written to the calendar file and read back
(`from_ical_component`): per-file ids `1…n`, `priority` collapsing to
`"中"`, the `X-*` timestamps truncated, and a `None` uid serialized as the
literal string `"None"` (`noneUidMarker`) and reloaded as an assigned
uid. -/
def switchStorageMode (s : Store) (newMode : String) : Store :=
  if newMode = s.mode then s
  else if newMode = "sqlite" then
    let reassigned := mapWithId
      (fun i e =>
        { e with
          id := i
          start_time := truncMin e.start_time
          end_time := truncMin e.end_time
          absolute_time := e.absolute_time.map truncMin
          last_reminded_time := e.last_reminded_time.map truncMin })
      (s.dbSeq + 1) s.events
    let reloaded := regenUids (freshUid s) reassigned
    { events := reloaded
      nextId := s.nextId
      dbSeq := s.dbSeq + s.events.length
      mode := "sqlite" }
  else
    let reloaded := mapWithId
      (fun i e =>
        { e with
          id := i
          uid := some (e.uid.getD noneUidMarker)
          priority := "中"
          absolute_time := e.absolute_time.map truncMin
          last_reminded_time := e.last_reminded_time.map truncMin })
      1 s.events
    { events := reloaded
      nextId := s.nextId
      dbSeq := s.dbSeq
      mode := newMode }

/-- A component of an external .ics file as `from_ical_component` parses it:
`uid = none` models a missing/empty UID string (falsy, so `Event.__init__`
draws a fresh uuid4 for it). -/
structure ParsedEvent where
  uid : Option Nat
  title : String
  start_time : Int
  end_time : Int
  description : String
  repeat_rule : String
  reminder_enabled : Bool
  reminder_type : String
  advance_value : Int
  advance_unit : String
  absolute_time : Option Int
  finished : Bool
  last_reminded_time : Option Int
deriving DecidableEq, Repr

/-- The `Event` built from a parsed component (priority is hard-coded to
`"中"`, `internal_id=0`; `fresh` is the uuid4 draw used when the file uid is
falsy). -/
def eventOfParsed (c : ParsedEvent) (fresh : Nat) : Event :=
  { id := 0
    uid := some (c.uid.getD fresh)
    title := c.title
    start_time := c.start_time
    end_time := c.end_time
    description := c.description
    priority := "中"
    repeat_rule := c.repeat_rule
    reminder_enabled := c.reminder_enabled
    reminder_type := c.reminder_type
    advance_value := c.advance_value
    advance_unit := c.advance_unit
    absolute_time := c.absolute_time
    finished := c.finished
    last_reminded_time := c.last_reminded_time }

/-- The import loop of `DataManager.import_from_ics`: `seen` is the
`existing_uids` set (which may contain `None` for stored shadow events —
harmless, since constructed events always carry a uid). -/
def importLoop (s : Store) (seen : List (Option Nat)) :
    List ParsedEvent → Store × Nat
  | [] => (s, 0)
  | c :: rest =>
    let e := eventOfParsed c (freshUid s)
    if e.uid ∈ seen then importLoop s seen rest
    else
      let s' := (addEvent s e).1
      let (s'', n) := importLoop s' (e.uid :: seen) rest
      (s'', n + 1)

/-- `DataManager.import_from_ics`: a missing path, empty or malformed file
is the `none` case (caught, count 0, store untouched); otherwise the parsed
components are inserted unless their uid is already present. -/
def importFromIcs (s : Store) (parsed : Option (List ParsedEvent)) :
    Store × Nat :=
  match parsed with
  | none => (s, 0)
  | some comps => importLoop s (s.events.map Event.uid) comps

/-- The initial store of a fresh data directory (no events file): empty
cache, `_next_event_id = 1`, pristine AUTOINCREMENT sequence. -/
def initStore (mode : String) : Store :=
  { events := [], nextId := 1, dbSeq := 0, mode := mode }

/-- The stores reachable from a fresh start through the application's
operations. -/
inductive Reachable : Store → Prop
  | init (mode : String) : Reachable (initStore mode)
  | add {s} (base : Event) : Reachable s → Reachable (opAdd s base)
  | update {s} (eid : Int) (p : Payload) : Reachable s → Reachable (opUpdate s eid p)
  | markFinished {s} (eid : Int) (fin : Bool) :
      Reachable s → Reachable (opMarkFinished s eid fin)
  | del {s} (eid : Int) : Reachable s → Reachable (opDelete s eid)
  | snooze {s} (eid minutes : Int) (now : Int) :
      Reachable s → Reachable (snoozeOp s eid minutes now)
  | switch {s} (newMode : String) : Reachable s → Reachable (switchStorageMode s newMode)
  | importIcs {s} (parsed : Option (List ParsedEvent)) :
      Reachable s → Reachable (importFromIcs s parsed).1

/-! ## Concrete fixtures used by witnesses and counterexamples -/

/-- The spec's example event: weekly "Standup" anchored on Monday
2025-01-06 09:00 with a 10-minute advance reminder. -/
def standupEvent : Event :=
  { id := 1, uid := some 1, title := "Standup",
    start_time := mkDT 2025 1 6 9 0, end_time := mkDT 2025 1 6 10 0,
    description := "", priority := "中", repeat_rule := "每周",
    reminder_enabled := true, reminder_type := "advance",
    advance_value := 10, advance_unit := "minutes",
    absolute_time := none, finished := false, last_reminded_time := none }

/-- A high-priority one-shot event (exhibits the iCalendar priority loss). -/
def hiPriorityEvent : Event :=
  { standupEvent with
    priority := "高"
    repeat_rule := "无"
    uid := some 7 }

/-- An advance reminder whose `advance_value` is 0 (reachable through an
imported `X-REMINDER-ADV-VAL:0`). -/
def zeroAdvanceEvent : Event :=
  { standupEvent with
    repeat_rule := "无"
    advance_value := 0 }

/-- A one-shot absolute-reminder event whose own date (2025-01-10) and
reminder date (2025-01-20) are both inside the January query range. -/
def absReminderEvent : Event :=
  { standupEvent with
    repeat_rule := "无"
    reminder_type := "absolute"
    start_time := mkDT 2025 1 10 9 0
    end_time := mkDT 2025 1 10 10 0
    absolute_time := some (mkDT 2025 1 20 8 0) }

/-- A tick/snooze instant with a non-zero seconds component. -/
def secondsInstant : Int := mkDTs 2025 1 6 8 50 30

/-- A small mixed store for the backend-equivalence witness. -/
def mixedStore : List Event :=
  [standupEvent, absReminderEvent,
    { standupEvent with id := 3, uid := some 3, repeat_rule := "无" }]

/-- A reachable file-mode store with a stale `_next_event_id`: two events
were added while in sqlite mode (where `add_event` never touches
`_next_event_id`), then the store was switched back to file mode — which
reloads the calendar file but never recalculates `_next_event_id`, leaving
it at its pristine value 1 while events with ids 1 and 2 are live. -/
def staleStore : Store :=
  switchStorageMode
    (opAdd (opAdd (switchStorageMode (initStore "ics") "sqlite") standupEvent)
      standupEvent)
    "ics"

/-- A parsed import component with uid 5. -/
def importedComp (t : String) : ParsedEvent :=
  { uid := some 5, title := t, start_time := mkDT 2025 3 1 12 0,
    end_time := mkDT 2025 3 1 13 0, description := "",
    repeat_rule := "无", reminder_enabled := false, reminder_type := "advance",
    advance_value := 30, advance_unit := "minutes", absolute_time := none,
    finished := false, last_reminded_time := none }

/-! ## Helper lemmas -/

/-- Mapping a function that acts as the identity on every member is the
identity. -/
theorem map_eq_self_of_eq {l : List Event} {f : Event → Event}
    (h : ∀ x ∈ l, f x = x) : l.map f = l := by
  induction l with
  | nil => rfl
  | cons a t ih =>
    simp only [List.map_cons]
    rw [h a (by simp), ih (fun x hx => h x (by simp [hx]))]

/-- Rebuilding a store with its own event list is the identity. -/
theorem store_eta (s : Store) : { s with events := s.events } = s := by
  cases s; rfl

/-- `replaceFirst` leaves a list untouched when no member's id matches. -/
theorem replaceFirst_of_no_match {g : Event → Event} {eid : Int} :
    ∀ {l : List Event}, (∀ x ∈ l, x.id ≠ eid) → replaceFirst g eid l = l := by
  intro l
  induction l with
  | nil => intro _; rfl
  | cons a t ih =>
    intro h
    simp only [replaceFirst]
    rw [if_neg (h a (by simp)), ih (fun x hx => h x (by simp [hx]))]

/-- When some member of the left part matches, `replaceFirst` never reaches
the right part. -/
theorem replaceFirst_append_left {g : Event → Event} {eid : Int} :
    ∀ {l₁ : List Event} (l₂ : List Event), (∃ x ∈ l₁, x.id = eid) →
      replaceFirst g eid (l₁ ++ l₂) = replaceFirst g eid l₁ ++ l₂ := by
  intro l₁
  induction l₁ with
  | nil =>
    intro l₂ h
    exact absurd h (by simp)
  | cons a t ih =>
    intro l₂ h
    by_cases ha : a.id = eid
    · simp only [List.cons_append, replaceFirst, if_pos ha]
      rfl
    · simp only [List.cons_append, replaceFirst, if_neg ha]
      rw [show t.append l₂ = t ++ l₂ from rfl, ih l₂]
      obtain ⟨x, hx, hxe⟩ := h
      rcases List.mem_cons.mp hx with h1 | h2
      · exact absurd (h1 ▸ hxe) ha
      · exact ⟨x, h2, hxe⟩

/-- A uid-preserving `replaceFirst` preserves the uid projection. -/
theorem replaceFirst_map_uid {g : Event → Event} {eid : Int}
    (hg : ∀ x, (g x).uid = x.uid) :
    ∀ l : List Event,
      (replaceFirst g eid l).map Event.uid = l.map Event.uid := by
  intro l
  induction l with
  | nil => rfl
  | cons a t ih =>
    simp only [replaceFirst]
    by_cases ha : a.id = eid
    · simp only [if_pos ha, List.map_cons, hg]
    · simp only [if_neg ha, List.map_cons, ih]

/-- An id-preserving `replaceFirst` preserves the id projection. -/
theorem replaceFirst_map_id {g : Event → Event} {eid : Int}
    (hg : ∀ x, (g x).id = x.id) :
    ∀ l : List Event,
      (replaceFirst g eid l).map Event.id = l.map Event.id := by
  intro l
  induction l with
  | nil => rfl
  | cons a t ih =>
    simp only [replaceFirst]
    by_cases ha : a.id = eid
    · simp only [if_pos ha, List.map_cons, hg]
    · simp only [if_neg ha, List.map_cons, ih]

/-! ## C5 -/

/-- C5 counterexample: in sqlite mode, `update_event` on an event whose id
matches no stored record (here: the empty store) returns `True`, not the
claimed `False` — `UPDATE … WHERE id=?` silently updates nothing and
`_update_event_db` returns `True` unconditionally. -/
theorem c5_counterexample :
    (initStore "sqlite").events = [] ∧
    (updateEventOp (initStore "sqlite") standupEvent).2 ≠ false := by
  decide

/-- C5 (amended): updating an event whose id matches no stored record leaves
the store unchanged and returns `False` in file mode but `True` in sqlite
mode. -/
theorem c5_update_missing_id (s : Store) (e : Event)
    (h : ∀ x ∈ s.events, x.id ≠ e.id) :
    (updateEventOp s e).1 = s ∧
    (updateEventOp s e).2 = decide (s.mode = "sqlite") := by
  cases s with
  | mk ev ni ds mo =>
    have hrf : replaceFirst (fun _ => e) e.id ev = ev :=
      replaceFirst_of_no_match h
    have hany : (ev.any fun x => x.id = e.id) = false := by
      simp only [List.any_eq_false, decide_eq_true_eq]
      exact h
    by_cases hm : mo = "sqlite" <;> simp [updateEventOp, hm, hrf, hany]

/-- C5 witness: the amended statement at the concrete sqlite counterexample
store. -/
theorem c5_witness :
    (updateEventOp (initStore "sqlite") standupEvent).1 = initStore "sqlite" ∧
    (updateEventOp (initStore "sqlite") standupEvent).2 =
      decide ((initStore "sqlite").mode = "sqlite") :=
  c5_update_missing_id (initStore "sqlite") standupEvent (by decide)

/-! ## C7 -/

/-- C7: `update_from_payload` resets `last_reminded_time` exactly when the
payload carries a (parseable) start time different from the current one or
enables the reminder from a previously-disabled state; an update doing
neither leaves it unchanged. -/
theorem c7_lrt_reset (e : Event) (p : Payload) :
    (∀ st, p.start_time = some st → st ≠ e.start_time →
      (updateFromPayload e p).last_reminded_time = none) ∧
    (p.reminder_enabled = some true → e.reminder_enabled = false →
      (updateFromPayload e p).last_reminded_time = none) ∧
    ((p.start_time = none ∨ p.start_time = some e.start_time) →
      ¬ (p.reminder_enabled.getD e.reminder_enabled = true ∧
          e.reminder_enabled = false) →
      (updateFromPayload e p).last_reminded_time = e.last_reminded_time) := by
  refine ⟨?_, ?_, ?_⟩
  · intro st hst hne
    simp only [updateFromPayload, hst]
    split <;> simp [hne]
  · intro hen hdis
    simp [updateFromPayload, hen, hdis]
  · intro hst hen
    rcases hb : p.reminder_enabled.getD e.reminder_enabled with _ | _
    · rcases hst with h0 | h0 <;> simp [updateFromPayload, h0, hb]
    · have he : e.reminder_enabled = true := by
        by_contra hE
        exact hen ⟨hb, by simpa using hE⟩
      rcases hst with h0 | h0 <;> simp [updateFromPayload, h0, hb, he]

/-- C7 witness: a payload moving `start_time` resets `last_reminded_time` on
a concrete event that had one. -/
theorem c7_witness :
    (updateFromPayload
      { standupEvent with last_reminded_time := some (mkDT 2025 1 6 8 50) }
      { title := none, start_time := some (mkDT 2025 1 7 9 0), end_time := none,
        description := none, priority := none, repeat_rule := none,
        finished := none, reminder_enabled := none, reminder_type := none,
        advance_value := none, advance_unit := none,
        absolute_time := none }).last_reminded_time = none :=
  (c7_lrt_reset _ _).1 (mkDT 2025 1 7 9 0) rfl (by decide)

/-! ## C1 -/

/-- C1 counterexample: the iCalendar component carries no priority property
and `from_ical_component` hard-codes `priority="中"`, so a high-priority
event does not round-trip even up to minute-precision timestamp truncation
(priority is not a timestamp). -/
theorem c1_counterexample :
    ¬ eqUpToMinute
        (fromIcalComponent (toIcalComponent hiPriorityEvent) hiPriorityEvent.id 99)
        hiPriorityEvent := by
  decide

/-- C1 (amended): for an event with an assigned uid and a `repeat_rule` in
the model's five values, both storage forms round-trip every field up to
minute-precision timestamp truncation, except that the iCalendar form does
not store `priority` and decodes it as the default `"中"` (the relational
row truncates all four timestamps; the iCalendar component keeps full
`DTSTART`/`DTEND` precision and truncates only the `X-*` timestamps). -/
theorem c1_roundtrip_amended (e : Event) (i : Int) (u fr : Nat)
    (hu : e.uid = some u)
    (hr : e.repeat_rule = "无" ∨ e.repeat_rule = "每日" ∨ e.repeat_rule = "每周" ∨
          e.repeat_rule = "每月" ∨ e.repeat_rule = "每年") :
    rowToEvent (eventToTuple e i) fr =
      { e with
        id := i
        start_time := truncMin e.start_time
        end_time := truncMin e.end_time
        absolute_time := e.absolute_time.map truncMin
        last_reminded_time := e.last_reminded_time.map truncMin } ∧
    fromIcalComponent (toIcalComponent e) i fr =
      { e with
        id := i
        priority := "中"
        absolute_time := e.absolute_time.map truncMin
        last_reminded_time := e.last_reminded_time.map truncMin } := by
  constructor
  · cases e with
    | mk id uid title st et de pr rr re rt av au ab fi lr =>
      cases hu
      cases re <;> cases fi <;> simp [rowToEvent, eventToTuple]
  · cases e with
    | mk id uid title st et de pr rr re rt av au ab fi lr =>
      cases hu
      rcases hr with h | h | h | h | h <;> cases h <;>
        cases re <;> cases fi <;>
        simp [fromIcalComponent, toIcalComponent]

/-- C1 witness: the amended round-trip at a concrete event exercising the
weekly rule and an absolute reminder. -/
theorem c1_witness :
    rowToEvent (eventToTuple absReminderEvent 5) 99 =
      { absReminderEvent with
        id := 5
        start_time := truncMin absReminderEvent.start_time
        end_time := truncMin absReminderEvent.end_time
        absolute_time := absReminderEvent.absolute_time.map truncMin
        last_reminded_time := absReminderEvent.last_reminded_time.map truncMin } ∧
    fromIcalComponent (toIcalComponent absReminderEvent) 5 99 =
      { absReminderEvent with
        id := 5
        priority := "中"
        absolute_time := absReminderEvent.absolute_time.map truncMin
        last_reminded_time := absReminderEvent.last_reminded_time.map truncMin } :=
  c1_roundtrip_amended absReminderEvent 5 1 99 rfl (Or.inl rfl)

/-! ## C2 -/

/-- The claim's trigger instant with the source's defaulting made explicit:
a zero `advance_value` is replaced by 30 (Python `e.advance_value or 30`)
and an empty or unrecognized `advance_unit` counts as minutes after
lowercasing. -/
def amendedTriggerC2 (e : Event) : Option Int :=
  if e.reminder_type = "absolute" then e.absolute_time
  else
    let v : Int := if e.advance_value = 0 then 30 else e.advance_value
    let u := pyLower (if e.advance_unit = "" then "minutes" else e.advance_unit)
    some (e.start_time -
      (if u = "hours" then v * 3600 else if u = "days" then v * 86400 else v * 60))

/-- C2 counterexample: an enabled, unfinished advance reminder with
`advance_value = 0` (reachable via an imported `X-REMINDER-ADV-VAL:0`).
The claim's trigger instant is `start_time - 0 = 09:00`, but
`_calc_trigger_dt` computes `int(e.advance_value or 30)` = 30 minutes, so at
08:30 the code fires while the claim's iff says it must not. -/
theorem c2_counterexample : ¬ claimC2Holds (mkDT 2025 1 6 8 30) zeroAdvanceEvent := by
  intro h
  obtain ⟨t0, ht, hle, _⟩ := h.mp (by decide)
  have h2 : claimTriggerC2 zeroAdvanceEvent = some (mkDT 2025 1 6 9 0) := by decide
  rw [h2] at ht
  cases ht
  exact absurd hle (by decide)

/-- C2 (amended): on every scheduler tick at (minute-truncated) instant
`now`, an unfinished occurrence with reminders enabled fires iff the
minute-truncated trigger instant — the absolute time for absolute
reminders (an absent absolute time never fires), otherwise `start_time`
minus the advance duration with the source's defaulting of a zero value to
30 and an unrecognized unit to minutes — satisfies `now ≥ trigger` and
`last_reminded_time` is absent or `< trigger`. -/
theorem c2_fire_iff_amended (now : Int) (e : Event)
    (hf : e.finished = false) (he : e.reminder_enabled = true) :
    shouldRemind now e = true ↔
      ∃ t0, amendedTriggerC2 e = some t0 ∧ truncMin t0 ≤ now ∧
        (e.last_reminded_time = none ∨
          ∃ l, e.last_reminded_time = some l ∧ l < truncMin t0) := by
  have hcalc : calcTriggerDt e = amendedTriggerC2 e := by
    simp [calcTriggerDt, amendedTriggerC2, he]
  cases htrig : amendedTriggerC2 e with
  | none => simp [shouldRemind, hf, hcalc, htrig]
  | some t0 =>
    have hLHS : shouldRemind now e =
        (if now < truncMin t0 then false else
          match e.last_reminded_time with
          | none => true
          | some l => decide (l < truncMin t0)) := by
      simp [shouldRemind, hf, hcalc, htrig]
    have hiff : (∃ t0', some t0 = some t0' ∧ truncMin t0' ≤ now ∧
        (e.last_reminded_time = none ∨
          ∃ l, e.last_reminded_time = some l ∧ l < truncMin t0')) ↔
        (truncMin t0 ≤ now ∧ (e.last_reminded_time = none ∨
          ∃ l, e.last_reminded_time = some l ∧ l < truncMin t0)) := by
      constructor
      · rintro ⟨t0', ht', h⟩
        cases ht'
        exact h
      · intro h
        exact ⟨t0, rfl, h⟩
    rw [hLHS, hiff]
    by_cases hlt : now < truncMin t0
    · rw [if_pos hlt]
      constructor
      · intro h
        simp at h
      · rintro ⟨hle, _⟩
        omega
    · rw [if_neg hlt]
      cases hl : e.last_reminded_time with
      | none => simp; omega
      | some l => simp; omega

/-- C2 witness: the amended iff at the Standup occurrence at 08:50, where
the advance trigger has just been reached. -/
theorem c2_witness :
    standupEvent.finished = false ∧ standupEvent.reminder_enabled = true ∧
    (shouldRemind (mkDT 2025 1 6 8 50) standupEvent = true ↔
      ∃ t0, amendedTriggerC2 standupEvent = some t0 ∧
        truncMin t0 ≤ mkDT 2025 1 6 8 50 ∧
        (standupEvent.last_reminded_time = none ∨
          ∃ l, standupEvent.last_reminded_time = some l ∧ l < truncMin t0)) :=
  ⟨rfl, rfl, c2_fire_iff_amended (mkDT 2025 1 6 8 50) standupEvent rfl rfl⟩

/-! ## C6 -/

/-- C6 counterexample: snoozing the recurring Standup event by 10 minutes at
08:50:30 stores the shadow's `absolute_time` as the minute-truncated "now"
plus 10 minutes (09:00:00), so no stored event carries the claimed
`now + 10 minutes` (= 09:00:30). -/
theorem c6_counterexample :
    ((snoozeOp (opAdd (initStore "ics") standupEvent) 1 10 secondsInstant).events.map
        Event.absolute_time
      = [none, some (truncMin secondsInstant + 10 * 60)]) ∧
    truncMin secondsInstant + 10 * 60 ≠ secondsInstant + 10 * 60 := by
  decide

/-- C6 (amended): snoozing a stored recurring event by `m` minutes at
instant `now` appends exactly one new non-recurring event — reminder
enabled, `reminder_type = "absolute"`, `absolute_time` = the
minute-truncated `now` plus `m` minutes, a fresh backend id, no uid yet,
a " (稍后提醒)" title suffix — and otherwise only stamps the original's
`last_reminded_time` to `now`, leaving its `repeat_rule`, `title`,
`start_time` and every reminder-configuration field unchanged. -/
theorem c6_snooze_recurring (s : Store) (eid m now : Int) (e : Event)
    (hfind : s.events.find? (fun x => x.id = eid) = some e)
    (hrec : e.repeat_rule ≠ "无") :
    (snoozeOp s eid m now).events =
      replaceFirst (fun x => { x with last_reminded_time := some now })
        eid s.events
      ++ [{ e with
            id := if s.mode = "sqlite" then s.dbSeq + 1 else s.nextId
            uid := none
            title := e.title ++ " (稍后提醒)"
            repeat_rule := "无"
            reminder_enabled := true
            reminder_type := "absolute"
            absolute_time := some (truncMin now + m * 60) }] := by
  have hmem : e ∈ s.events := List.mem_of_find?_eq_some hfind
  have hid : e.id = eid := by
    have := List.find?_some hfind
    simpa using this
  have hex : ∃ x ∈ s.events, x.id = eid := ⟨e, hmem, hid⟩
  unfold snoozeOp
  rw [hfind]
  dsimp only
  rw [if_pos hrec]
  unfold addEvent
  by_cases hm : s.mode = "sqlite" <;>
    simp only [hm, ite_true, ite_false, reduceIte] <;>
    rw [replaceFirst_append_left _ hex]

/-- C6 witness: the amended statement at the concrete Standup store. -/
theorem c6_witness :
    (snoozeOp (opAdd (initStore "ics") standupEvent) 1 10 secondsInstant).events =
      replaceFirst
        (fun x => { x with last_reminded_time := some secondsInstant })
        1 (opAdd (initStore "ics") standupEvent).events
      ++ [{ ({ standupEvent with uid := some 1 } : Event) with
            id := if (opAdd (initStore "ics") standupEvent).mode = "sqlite"
                  then (opAdd (initStore "ics") standupEvent).dbSeq + 1
                  else (opAdd (initStore "ics") standupEvent).nextId
            uid := none
            title := standupEvent.title ++ " (稍后提醒)"
            repeat_rule := "无"
            reminder_enabled := true
            reminder_type := "absolute"
            absolute_time := some (truncMin secondsInstant + 10 * 60) }] :=
  c6_snooze_recurring (opAdd (initStore "ics") standupEvent) 1 10 secondsInstant
    { standupEvent with uid := some 1 } (by decide) (by decide)

/-! ## C9 -/

/-- Membership is preserved by the stable insertion. -/
theorem mem_insertEv {x y : Event} {l : List Event} :
    x ∈ insertEv y l ↔ x = y ∨ x ∈ l := by
  induction l with
  | nil => simp [insertEv]
  | cons a t ih =>
    simp only [insertEv]
    split
    · simp only [List.mem_cons, ih]
      tauto
    · simp

/-- Sorting a bucket does not change its members. -/
theorem mem_sortEvents {x : Event} {l : List Event} :
    x ∈ sortEvents l ↔ x ∈ l := by
  induction l with
  | nil => simp [sortEvents]
  | cons a t ih =>
    simp only [sortEvents, mem_insertEv, ih, List.mem_cons]

/-- Membership in the day list `s, s+1, …, s+n`. -/
theorem mem_dateRangeAux {d s : Int} {n : Nat} :
    d ∈ dateRangeAux s n ↔ s ≤ d ∧ d ≤ s + n := by
  induction n generalizing s with
  | zero =>
    show d ∈ [s] ↔ _
    simp only [List.mem_singleton]
    omega
  | succ k ih =>
    show d ∈ s :: dateRangeAux (s + 1) k ↔ _
    simp only [List.mem_cons, ih]
    omega

/-- The result dictionary has one key per day of the inclusive range. -/
theorem mem_dateRange {d s e : Int} : d ∈ dateRange s e ↔ s ≤ d ∧ d ≤ e := by
  unfold dateRange
  split
  · simp only [List.not_mem_nil, false_iff]
    omega
  · rw [mem_dateRangeAux]
    omega

/-- C9 counterexample: for the non-recurring absolute-reminder event with
start date 2025-01-10 and reminder date 2025-01-20, querying
2025-01-01..2025-01-31 leaves the 01-20 bucket empty — the source appends to
the reminder's bucket only when the event's own date is *outside* the range
(`is_rem_in_range and not is_in_range`), while the claim requires the append
whenever the two dates differ. -/
theorem c9_counterexample :
    ((expandEvents (fun _ _ => 0) [absReminderEvent] (daysFromCivil 2025 1 1)
        (daysFromCivil 2025 1 31)).find?
      (fun p => p.1 = daysFromCivil 2025 1 10)
      = some (daysFromCivil 2025 1 10, [absReminderEvent])) ∧
    ((expandEvents (fun _ _ => 0) [absReminderEvent] (daysFromCivil 2025 1 1)
        (daysFromCivil 2025 1 31)).find?
      (fun p => p.1 = daysFromCivil 2025 1 20)
      = some (daysFromCivil 2025 1 20, [])) := by
  decide

/-- C9 (amended): a stored non-recurring event is placed, unmodified, in the
bucket of its own start date whenever that date is in range; and when its
`reminder_type` is absolute, it is additionally placed in the bucket of the
absolute reminder's date whenever that date is in range and the event's own
start date is *not* in the query range. -/
theorem c9_absolute_bucket_amended (freshSup : Event → Int → Nat)
    (events : List Event) (e : Event) (s endd : Int)
    (hmem : e ∈ events) (hnone : e.repeat_rule = "无") :
    (s ≤ dateOf e.start_time → dateOf e.start_time ≤ endd →
      ∃ bucket,
        (dateOf e.start_time, bucket) ∈ expandEvents freshSup events s endd ∧
        e ∈ bucket) ∧
    (∀ at_, e.absolute_time = some at_ → e.reminder_type = "absolute" →
      s ≤ dateOf at_ → dateOf at_ ≤ endd →
      ¬ (s ≤ dateOf e.start_time ∧ dateOf e.start_time ≤ endd) →
      ∃ bucket,
        (dateOf at_, bucket) ∈ expandEvents freshSup events s endd ∧
        e ∈ bucket) := by
  constructor
  · intro h1 h2
    refine ⟨sortEvents (events.filterMap fun ev =>
        contributionOn (freshSup ev (dateOf e.start_time)) ev s endd
          (dateOf e.start_time)), ?_, ?_⟩
    · unfold expandEvents
      exact List.mem_map_of_mem _ (mem_dateRange.mpr ⟨h1, h2⟩)
    · rw [mem_sortEvents]
      apply List.mem_filterMap.mpr
      refine ⟨e, hmem, ?_⟩
      unfold contributionOn
      rw [if_pos hnone, if_pos ⟨rfl, h1, h2⟩]
  · intro at_ habs htype h1 h2 hout
    refine ⟨sortEvents (events.filterMap fun ev =>
        contributionOn (freshSup ev (dateOf at_)) ev s endd
          (dateOf at_)), ?_, ?_⟩
    · unfold expandEvents
      exact List.mem_map_of_mem _ (mem_dateRange.mpr ⟨h1, h2⟩)
    · rw [mem_sortEvents]
      apply List.mem_filterMap.mpr
      refine ⟨e, hmem, ?_⟩
      unfold contributionOn
      rw [if_pos hnone, if_neg (by tauto), habs]
      dsimp only
      rw [if_pos ⟨htype, h1, h2, hout, rfl⟩]

/-- C9 witness: the amended statement at a store whose event starts outside
the 2025-01-15..31 range but carries an in-range absolute reminder. -/
theorem c9_witness :
    ∃ bucket, (dateOf (mkDT 2025 1 20 8 0), bucket) ∈
      expandEvents (fun _ _ => 0) [absReminderEvent] (daysFromCivil 2025 1 15)
        (daysFromCivil 2025 1 31) ∧ absReminderEvent ∈ bucket :=
  (c9_absolute_bucket_amended (fun _ _ => 0) [absReminderEvent] absReminderEvent
      (daysFromCivil 2025 1 15) (daysFromCivil 2025 1 31)
      (by decide) rfl).2
    (mkDT 2025 1 20 8 0) rfl rfl (by decide) (by decide) (by decide)

/-! ## C8 -/

/-- Store well-formedness: every cached id is within the active backend's
id-assignment bound (`_next_event_id` for file mode, the `AUTOINCREMENT`
sequence for sqlite). -/
def idBound (s : Store) : Prop :=
  ∀ b ∈ s.events, (s.mode = "sqlite" → b.id ≤ s.dbSeq) ∧
    (s.mode ≠ "sqlite" → b.id < s.nextId)

/-- The reduced form of `add_event` in sqlite mode. -/
theorem addEvent_sqlite (s : Store) (e : Event) (hm : s.mode = "sqlite") :
    addEvent s e =
      ({ s with
         events := s.events ++ [{ e with id := s.dbSeq + 1 }]
         dbSeq := s.dbSeq + 1 }, s.dbSeq + 1) := by
  simp [addEvent, hm]

/-- The reduced form of `add_event` in file mode. -/
theorem addEvent_ics (s : Store) (e : Event) (hm : s.mode ≠ "sqlite") :
    addEvent s e =
      ({ s with
         events := s.events ++ [{ e with id := s.nextId }]
         nextId := s.nextId + 1 }, s.nextId) := by
  simp [addEvent, hm]

/-- `add_event` appends the event carrying the freshly assigned id. -/
theorem addEvent_events (s : Store) (e : Event) :
    (addEvent s e).1.events = s.events ++ [{ e with id := (addEvent s e).2 }] := by
  by_cases hm : s.mode = "sqlite"
  · rw [addEvent_sqlite s e hm]
  · rw [addEvent_ics s e hm]

/-- `add_event` preserves the storage mode. -/
theorem addEvent_mode (s : Store) (e : Event) :
    (addEvent s e).1.mode = s.mode := by
  by_cases hm : s.mode = "sqlite"
  · rw [addEvent_sqlite s e hm]
  · rw [addEvent_ics s e hm]

/-- In a well-formed store, the id `add_event` assigns is strictly larger
than every cached id. -/
theorem addEvent_fresh_id (s : Store) (e : Event) (hb : idBound s) :
    ∀ b ∈ s.events, b.id < (addEvent s e).2 := by
  intro b hbm
  by_cases hm : s.mode = "sqlite"
  · rw [addEvent_sqlite s e hm]
    have := (hb b hbm).1 hm
    show b.id < s.dbSeq + 1
    omega
  · rw [addEvent_ics s e hm]
    have := (hb b hbm).2 hm
    show b.id < s.nextId
    omega

/-- `add_event` keeps the store well-formed. -/
theorem addEvent_idBound (s : Store) (e : Event) (hb : idBound s) :
    idBound (addEvent s e).1 := by
  by_cases hm : s.mode = "sqlite"
  · rw [addEvent_sqlite s e hm]
    intro b hbm
    simp only [List.mem_append, List.mem_singleton] at hbm
    refine ⟨fun _ => ?_, fun hx => absurd hm hx⟩
    show b.id ≤ s.dbSeq + 1
    rcases hbm with h | h
    · have := (hb b h).1 hm
      omega
    · subst h
      show s.dbSeq + 1 ≤ s.dbSeq + 1
      omega
  · rw [addEvent_ics s e hm]
    intro b hbm
    simp only [List.mem_append, List.mem_singleton] at hbm
    refine ⟨fun hx => absurd hx hm, fun _ => ?_⟩
    show b.id < s.nextId + 1
    rcases hbm with h | h
    · have := (hb b h).2 hm
      omega
    · subst h
      show s.nextId < s.nextId + 1
      omega

/-- The import loop inserts exactly the components whose uid is not yet
seen: the original events stay untouched as a prefix, the returned count is
the number of inserted events, every inserted event carries a uid absent
from `seen` — and, provided the pre-import store's cached ids actually
respect the active backend's id bound, the inserted ids are fresh.  The
bound is *not* an invariant of every reachable store (file mode's
`_next_event_id` goes stale across `switch_storage_mode`), so the
id-freshness conjunct is conditional. -/
theorem importLoop_spec (comps : List ParsedEvent) :
    ∀ (s : Store) (seen : List (Option Nat)),
    (∀ b ∈ s.events, b.uid ∈ seen) →
    ∃ added,
      (importLoop s seen comps).1.events = s.events ++ added ∧
      (importLoop s seen comps).2 = added.length ∧
      (∀ a ∈ added, a.uid ∉ seen) ∧
      (idBound s → ∀ a ∈ added, ∀ b ∈ s.events, a.id ≠ b.id) := by
  induction comps with
  | nil =>
    intro s seen _
    exact ⟨[], by simp [importLoop], by simp [importLoop], by simp, by simp⟩
  | cons c rest ih =>
    intro s seen hseen
    by_cases hmem : (eventOfParsed c (freshUid s)).uid ∈ seen
    · obtain ⟨added, h1, h2, h3, h4⟩ := ih s seen hseen
      refine ⟨added, ?_, ?_, h3, h4⟩
      · simpa [importLoop, hmem] using h1
      · simpa [importLoop, hmem] using h2
    · have hev := addEvent_events s (eventOfParsed c (freshUid s))
      have hseen' :
          ∀ b ∈ (addEvent s (eventOfParsed c (freshUid s))).1.events,
            b.uid ∈ (eventOfParsed c (freshUid s)).uid :: seen := by
        intro b hb
        rw [hev] at hb
        simp only [List.mem_append, List.mem_singleton] at hb
        rcases hb with h | h
        · exact List.mem_cons_of_mem _ (hseen b h)
        · subst h
          exact List.mem_cons_self _ _
      obtain ⟨added, h1, h2, h3, h4⟩ :=
        ih (addEvent s (eventOfParsed c (freshUid s))).1
          ((eventOfParsed c (freshUid s)).uid :: seen) hseen'
      refine ⟨{ eventOfParsed c (freshUid s) with
                 id := (addEvent s (eventOfParsed c (freshUid s))).2 } :: added,
              ?_, ?_, ?_, ?_⟩
      · rw [importLoop]
        simp only [hmem, ite_false, reduceIte]
        rw [h1, hev]
        simp
      · rw [importLoop]
        simp only [hmem, ite_false, reduceIte]
        rw [h2]
        simp
      · intro a ha
        rcases List.mem_cons.mp ha with h | h
        · subst h
          simpa using hmem
        · intro hc
          exact h3 a h (List.mem_cons_of_mem _ hc)
      · intro hbound a ha b hb
        have hbound' := addEvent_idBound s (eventOfParsed c (freshUid s)) hbound
        have hfreshid := addEvent_fresh_id s (eventOfParsed c (freshUid s)) hbound
        rcases List.mem_cons.mp ha with h | h
        · subst h
          have := hfreshid b hb
          show (addEvent s (eventOfParsed c (freshUid s))).2 ≠ b.id
          omega
        · have hbmem : b ∈ (addEvent s (eventOfParsed c (freshUid s))).1.events := by
            rw [hev]
            exact List.mem_append_left _ hb
          exact h4 hbound' a h b hbmem

/-- Transfer an id bound along an equality of id projections. -/
theorem id_bound_of_map_id_eq {l' l : List Event} {B : Int}
    (hmap : l'.map Event.id = l.map Event.id)
    (h : ∀ c ∈ l, c.id ≤ B) : ∀ b ∈ l', b.id ≤ B := by
  intro b hb
  have hmem : b.id ∈ l'.map Event.id := List.mem_map_of_mem _ hb
  rw [hmap] at hmem
  obtain ⟨c, hc, hce⟩ := List.mem_map.mp hmem
  exact hce ▸ h c hc

/-- `regenUids` changes only uids, never ids. -/
theorem regen_map_id : ∀ (c : Nat) (l : List Event),
    (regenUids c l).map Event.id = l.map Event.id := by
  intro c l
  induction l generalizing c with
  | nil => rfl
  | cons a t ih =>
    rw [regenUids]
    cases ha : a.uid with
    | some u =>
      dsimp only
      rw [List.map_cons, List.map_cons, ih]
    | none =>
      dsimp only
      rw [List.map_cons, List.map_cons, ih]

/-- Ids assigned by an id-stamping indexed map form the consecutive block
starting at the seed. -/
theorem mapWithId_id_bound {f : Int → Event → Event}
    (hf : ∀ i e, (f i e).id = i) :
    ∀ (l : List Event) (i : Int), ∀ b ∈ mapWithId f i l,
      i ≤ b.id ∧ b.id < i + (l.length : Int) := by
  intro l
  induction l with
  | nil =>
    intro i b hb
    exact absurd hb (List.not_mem_nil b)
  | cons a t ih =>
    intro i b hb
    rw [mapWithId] at hb
    rcases List.mem_cons.mp hb with h | h
    · subst h
      rw [hf]
      simp only [List.length_cons]
      constructor
      · omega
      · push_cast
        omega
    · have := ih (i + 1) b h
      simp only [List.length_cons]
      push_cast
      omega

/-- In sqlite mode, `add_event` keeps every cached id at or below the
bumped `AUTOINCREMENT` sequence. -/
theorem addEvent_sqlite_bound (s : Store) (e : Event) (hm : s.mode = "sqlite")
    (h : ∀ c ∈ s.events, c.id ≤ s.dbSeq) :
    ∀ b ∈ (addEvent s e).1.events, b.id ≤ (addEvent s e).1.dbSeq := by
  rw [addEvent_sqlite s e hm]
  intro b hb
  show b.id ≤ s.dbSeq + 1
  rcases List.mem_append.mp hb with h1 | h1
  · have := h b h1
    omega
  · rw [List.mem_singleton] at h1
    subst h1
    show s.dbSeq + 1 ≤ s.dbSeq + 1
    omega

/-- `snooze` preserves the storage mode. -/
theorem snoozeOp_mode (s : Store) (eid minutes now : Int) :
    (snoozeOp s eid minutes now).mode = s.mode := by
  unfold snoozeOp
  cases hfind : s.events.find? (fun x => x.id = eid) with
  | none => rfl
  | some e =>
    dsimp only
    split
    · exact addEvent_mode s _
    · rfl

/-- `snooze` keeps every sqlite-mode cached id at or below the sequence. -/
theorem snoozeOp_sqlite_bound (s : Store) (eid minutes now : Int)
    (hm : s.mode = "sqlite") (h : ∀ c ∈ s.events, c.id ≤ s.dbSeq) :
    ∀ b ∈ (snoozeOp s eid minutes now).events,
      b.id ≤ (snoozeOp s eid minutes now).dbSeq := by
  unfold snoozeOp
  cases hfind : s.events.find? (fun x => x.id = eid) with
  | none => exact h
  | some e =>
    dsimp only
    split
    · intro b hb
      refine id_bound_of_map_id_eq ?_ (addEvent_sqlite_bound s _ hm h) b hb
      apply replaceFirst_map_id
      intro x
      rfl
    · intro b hb
      refine id_bound_of_map_id_eq ?_ h b hb
      apply replaceFirst_map_id
      intro x
      rfl

/-- `switch_storage_mode` keeps every cached id at or below the sqlite
sequence whenever the resulting store is in sqlite mode. -/
theorem switch_sqlite_bound (s : Store) (newMode : String)
    (hm : (switchStorageMode s newMode).mode = "sqlite")
    (h : s.mode = "sqlite" → ∀ c ∈ s.events, c.id ≤ s.dbSeq) :
    ∀ b ∈ (switchStorageMode s newMode).events,
      b.id ≤ (switchStorageMode s newMode).dbSeq := by
  unfold switchStorageMode at hm ⊢
  by_cases h1 : newMode = s.mode
  · rw [if_pos h1] at hm ⊢
    exact h hm
  · rw [if_neg h1] at hm ⊢
    by_cases h2 : newMode = "sqlite"
    · rw [if_pos h2] at hm ⊢
      dsimp only at hm ⊢
      intro b hb
      show b.id ≤ s.dbSeq + (s.events.length : Int)
      have hbound : ∀ c ∈ mapWithId
          (fun i e =>
            { e with
              id := i
              start_time := truncMin e.start_time
              end_time := truncMin e.end_time
              absolute_time := e.absolute_time.map truncMin
              last_reminded_time := e.last_reminded_time.map truncMin })
          (s.dbSeq + 1) s.events, c.id ≤ s.dbSeq + (s.events.length : Int) := by
        intro c hc
        have := @mapWithId_id_bound
          (fun i e =>
            { e with
              id := i
              start_time := truncMin e.start_time
              end_time := truncMin e.end_time
              absolute_time := e.absolute_time.map truncMin
              last_reminded_time := e.last_reminded_time.map truncMin })
          (fun i e => rfl) s.events (s.dbSeq + 1) c hc
        omega
      refine id_bound_of_map_id_eq ?_ hbound b hb
      exact regen_map_id _ _
    · rw [if_neg h2] at hm ⊢
      dsimp only at hm
      exact absurd hm h2

/-- The import loop preserves the storage mode. -/
theorem importLoop_mode (comps : List ParsedEvent) :
    ∀ (s : Store) (seen : List (Option Nat)),
      (importLoop s seen comps).1.mode = s.mode := by
  induction comps with
  | nil => intro s seen; rfl
  | cons c rest ih =>
    intro s seen
    by_cases hmem : (eventOfParsed c (freshUid s)).uid ∈ seen
    · rw [show importLoop s seen (c :: rest) = importLoop s seen rest from by
        rw [importLoop]; simp [hmem]]
      exact ih s seen
    · rw [show (importLoop s seen (c :: rest)).1 =
          (importLoop (addEvent s (eventOfParsed c (freshUid s))).1
            ((eventOfParsed c (freshUid s)).uid :: seen) rest).1 from by
        rw [importLoop]; simp [hmem]]
      rw [ih, addEvent_mode]

/-- The import loop keeps a well-formed store well-formed. -/
theorem importLoop_idBound (comps : List ParsedEvent) :
    ∀ (s : Store) (seen : List (Option Nat)),
      idBound s → idBound (importLoop s seen comps).1 := by
  induction comps with
  | nil => intro s seen hb; exact hb
  | cons c rest ih =>
    intro s seen hb
    by_cases hmem : (eventOfParsed c (freshUid s)).uid ∈ seen
    · rw [show importLoop s seen (c :: rest) = importLoop s seen rest from by
        rw [importLoop]; simp [hmem]]
      exact ih s seen hb
    · rw [show (importLoop s seen (c :: rest)).1 =
          (importLoop (addEvent s (eventOfParsed c (freshUid s))).1
            ((eventOfParsed c (freshUid s)).uid :: seen) rest).1 from by
        rw [importLoop]; simp [hmem]]
      exact ih _ _ (addEvent_idBound s _ hb)

/-- In every reachable *sqlite-mode* store, every cached id is at or below
the `AUTOINCREMENT` sequence: sqlite's `lastrowid` is always `seq + 1`, and
every other operation preserves the cached ids.  (No analogous invariant
holds for file mode: `_next_event_id` goes stale across
`switch_storage_mode`, which never recalculates it.) -/
theorem sqlite_idBound_of_reachable :
    ∀ s : Store, Reachable s → s.mode = "sqlite" →
      ∀ b ∈ s.events, b.id ≤ s.dbSeq := by
  intro s h
  induction h with
  | init mode =>
    intro _ b hb
    exact absurd hb (List.not_mem_nil b)
  | add base _ ih =>
    rename_i s' _
    intro hm b hb
    have hm' : s'.mode = "sqlite" := by
      rw [← addEvent_mode s' { base with uid := some (freshUid s') }]
      exact hm
    unfold opAdd at hb ⊢
    exact addEvent_sqlite_bound s' _ hm' (ih hm') b hb
  | update eid p _ ih =>
    rename_i s' _
    intro hm b hb
    have hm' : s'.mode = "sqlite" := hm
    unfold opUpdate at hb ⊢
    refine id_bound_of_map_id_eq ?_ (ih hm') b hb
    apply replaceFirst_map_id
    intro x
    rfl
  | markFinished eid fin _ ih =>
    rename_i s' _
    intro hm b hb
    have hm' : s'.mode = "sqlite" := hm
    unfold opMarkFinished at hb ⊢
    refine id_bound_of_map_id_eq ?_ (ih hm') b hb
    apply replaceFirst_map_id
    intro x
    rfl
  | del eid _ ih =>
    rename_i s' _
    intro hm b hb
    unfold opDelete at hb
    exact ih hm b (List.mem_of_mem_filter hb)
  | snooze eid minutes now _ ih =>
    rename_i s' _
    intro hm b hb
    have hm' : s'.mode = "sqlite" := by
      rw [← snoozeOp_mode s' eid minutes now]
      exact hm
    exact snoozeOp_sqlite_bound s' eid minutes now hm' (ih hm') b hb
  | switch newMode _ ih =>
    rename_i s' _
    intro hm b hb
    exact switch_sqlite_bound s' newMode hm (fun h1 => ih h1) b hb
  | importIcs parsed _ ih =>
    rename_i s' _
    intro hm b hb
    cases parsed with
    | none => exact ih hm b hb
    | some comps =>
      have hm' : s'.mode = "sqlite" := by
        rw [← importLoop_mode comps s' (s'.events.map Event.uid)]
        exact hm
      have hib : idBound s' := by
        intro c hc
        exact ⟨fun _ => ih hm' c hc, fun hne => absurd hm' hne⟩
      have hres := importLoop_idBound comps s' (s'.events.map Event.uid) hib
      exact (hres b hb).1 hm

/-- C8 counterexample: the claim's "fresh backend-assigned ids" fails on a
reachable store.  Two events are added in sqlite mode (which never touches
the file-mode counter `_next_event_id`), then the store is switched back to
file mode — `switch_storage_mode` never recalculates `_next_event_id`, so
it is still 1 while events with ids 1 and 2 are live.  Importing one new
component then stores it with id 1, colliding with a live event's id. -/
theorem c8_counterexample :
    Reachable staleStore ∧
    staleStore.mode = "ics" ∧
    staleStore.nextId = 1 ∧
    staleStore.events.map Event.id = [1, 2] ∧
    (importFromIcs staleStore (some [importedComp "x"])).2 = 1 ∧
    (importFromIcs staleStore (some [importedComp "x"])).1.events.map Event.id
      = [1, 2, 1] := by
  refine ⟨?_, by decide, by decide, by decide, by decide, by decide⟩
  exact Reachable.switch "ics"
    (Reachable.add standupEvent
      (Reachable.add standupEvent
        (Reachable.switch "sqlite" (Reachable.init "ics"))))

/-- C8 (amended): importing an external calendar file skips every parsed
record whose uid is already in the current store (the pre-import events
survive unmodified as a prefix, never overwritten), returns the number of
events actually inserted, and every inserted event's uid is fresh; the
inserted events' backend-assigned ids are fresh whenever the store is a
reachable sqlite-mode store — in file mode a stale `_next_event_id` can
collide with a live id; a malformed or unreadable file yields count 0 and
an unchanged store; importing two components with an identical uid into an
empty store inserts exactly one event. -/
theorem c8_import_amended :
    (∀ (s : Store) (comps : List ParsedEvent), ∃ added,
      (importFromIcs s (some comps)).1.events = s.events ++ added ∧
      (importFromIcs s (some comps)).2 = added.length ∧
      (∀ a ∈ added, ∀ b ∈ s.events, a.uid ≠ b.uid) ∧
      (Reachable s → s.mode = "sqlite" →
        ∀ a ∈ added, ∀ b ∈ s.events, a.id ≠ b.id)) ∧
    (∀ s : Store, importFromIcs s none = (s, 0)) ∧
    (importFromIcs (initStore "ics")
      (some [importedComp "a", importedComp "b"])).2 = 1 := by
  refine ⟨?_, fun s => rfl, by decide⟩
  intro s comps
  obtain ⟨added, h1, h2, h3, h4⟩ :=
    importLoop_spec comps s (s.events.map Event.uid)
      (fun b hb => List.mem_map_of_mem _ hb)
  refine ⟨added, h1, h2, ?_, ?_⟩
  · intro a ha b hb hc
    exact h3 a ha (hc ▸ List.mem_map_of_mem _ hb)
  · intro hr hm
    refine h4 ?_
    intro c hc
    exact ⟨fun _ => sqlite_idBound_of_reachable s hr hm c hc,
      fun hne => absurd hm hne⟩

/-- C8 witness: the amended contract's concrete duplicate-uid import into an
empty store. -/
theorem c8_witness :
    (importFromIcs (initStore "ics")
      (some [importedComp "a", importedComp "b"])).2 = 1 :=
  c8_import_amended.2.2

/-! ## C10 -/

/-- A timestamp whose date lies in `[s, e]` has its minute truncation inside
the SQL text range `[sT00:00, eT23:59]` (ISO minute strings compare
chronologically). -/
theorem truncMin_in_sql_range {t s e : Int}
    (h1 : s ≤ dateOf t) (h2 : dateOf t ≤ e) :
    s * 86400 ≤ truncMin t ∧ truncMin t ≤ e * 86400 + 86340 := by
  unfold dateOf at h1 h2
  unfold truncMin
  omega

/-- Reading back the row written for a minute-aligned event with an assigned
uid returns the event unchanged. -/
theorem rowRoundtrip_eq_self (e : Event) (fr : Nat)
    (ha : minuteAligned e) (hu : e.uid.isSome = true) :
    rowRoundtrip e fr = e := by
  obtain ⟨u, hu'⟩ := Option.isSome_iff_exists.mp hu
  obtain ⟨h1, h2, h3, h4⟩ := ha
  cases e with
  | mk id uid title st et de pr rr re rt av au ab fi lr =>
    simp only at h1 h2 h3 h4
    simp only [Option.some.injEq] at hu' ⊢
    cases hu'
    cases re <;> cases fi <;>
      simp_all [rowRoundtrip, rowToEvent, eventToTuple]

/-- Filtering first does not change a `filterMap` whose function returns
`none` on every filtered-out element. -/
theorem filterMap_filter_of_none {p : Event → Bool} {f : Event → Option Event}
    {l : List Event} (h : ∀ x ∈ l, p x = false → f x = none) :
    (l.filter p).filterMap f = l.filterMap f := by
  induction l with
  | nil => rfl
  | cons a t ih =>
    have iht : (t.filter p).filterMap f = t.filterMap f :=
      ih fun x hx => h x (List.mem_cons_of_mem a hx)
    cases hp : p a with
    | true => simp [List.filter_cons, hp, List.filterMap_cons, iht]
    | false =>
      simp [List.filter_cons, hp, List.filterMap_cons, iht,
        h a (List.mem_cons_self a t) hp]

/-- `filterMap` only looks at its function's values on the list members. -/
theorem filterMap_congr_mem {f g : Event → Option Event} :
    ∀ {l : List Event}, (∀ x ∈ l, f x = g x) →
      l.filterMap f = l.filterMap g := by
  intro l
  induction l with
  | nil => intro _; rfl
  | cons a t ih =>
    intro h
    rw [List.filterMap_cons, List.filterMap_cons, h a (by simp),
      ih (fun x hx => h x (by simp [hx]))]

/-- The virtual copy of an event with an assigned uid does not depend on the
uuid draw. -/
theorem virtualOf_fresh_irrel {e : Event} (hu : e.uid.isSome = true)
    (f1 f2 : Nat) (dd : Int) : virtualOf f1 e dd = virtualOf f2 e dd := by
  obtain ⟨u, hu'⟩ := Option.isSome_iff_exists.mp hu
  unfold virtualOf
  rw [hu']
  rfl

/-- The per-day contribution of an event with an assigned uid does not
depend on the uuid draw. -/
theorem contributionOn_fresh_irrel {e : Event} (hu : e.uid.isSome = true)
    (f1 f2 : Nat) (s endd d : Int) :
    contributionOn f1 e s endd d = contributionOn f2 e s endd d := by
  by_cases hr : e.repeat_rule = "无"
  · simp only [contributionOn, hr, if_true]
  · simp only [contributionOn, if_neg hr]
    split_ifs <;> try rfl
    rw [virtualOf_fresh_irrel hu f1 f2]

/-- An event the SQL pre-filter drops contributes nothing to any in-range
bucket. -/
theorem contributionOn_none_of_filtered {ev : Event} {s e d : Int} (fr : Nat)
    (hf : sqlFilter s e ev = false) :
    contributionOn fr ev s e d = none := by
  have hrule : ev.repeat_rule = "无" := by
    by_contra hne
    simp [sqlFilter, hne] at hf
  have hstart : ¬ (s * 86400 ≤ truncMin ev.start_time ∧
      truncMin ev.start_time ≤ e * 86400 + 86340) := by
    intro hc
    simp [sqlFilter, hc.1, hc.2] at hf
  unfold contributionOn
  rw [if_pos hrule]
  have hnotin : ¬ (dateOf ev.start_time = d ∧
      s ≤ dateOf ev.start_time ∧ dateOf ev.start_time ≤ e) := by
    rintro ⟨_, hr1, hr2⟩
    exact hstart (truncMin_in_sql_range hr1 hr2)
  rw [if_neg hnotin]
  cases hab : ev.absolute_time with
  | none => rfl
  | some at_ =>
    have habs : ¬ (ev.reminder_type = "absolute" ∧ s ≤ dateOf at_ ∧
        dateOf at_ ≤ e ∧
        ¬ (s ≤ dateOf ev.start_time ∧ dateOf ev.start_time ≤ e) ∧
        dateOf at_ = d) := by
      rintro ⟨ht, hr1, hr2, _, _⟩
      obtain ⟨hb1, hb2⟩ := truncMin_in_sql_range hr1 hr2
      simp [sqlFilter, ht, hab, hb1, hb2] at hf
    dsimp only
    rw [if_neg habs]

/-- C10: on the same store contents — minute-aligned timestamps with
assigned uids, as both persisted forms guarantee for events they can both
hold — `get_events_between_dates` returns the identical
date-to-ordered-bucket mapping in file mode and in sqlite mode, whatever
uuid draws either run makes: the SQL pre-filter drops only events that
contribute to no bucket, the rows read back are the cached events
themselves, and on uid-carrying events the shared expansion never consumes
a draw. -/
theorem c10_backend_equivalence (fs1 fs2 : Event → Int → Nat)
    (events : List Event) (s e : Int) (fr : Nat)
    (h : ∀ ev ∈ events, minuteAligned ev ∧ ev.uid.isSome = true) :
    icsQuery fs1 events s e = sqliteQuery fs2 events s e fr := by
  unfold icsQuery sqliteQuery
  have hmap : (events.filter (sqlFilter s e)).map (rowRoundtrip · fr)
      = events.filter (sqlFilter s e) := by
    apply map_eq_self_of_eq
    intro x hx
    have hxm := List.mem_of_mem_filter hx
    exact rowRoundtrip_eq_self x fr (h x hxm).1 (h x hxm).2
  rw [hmap]
  unfold expandEvents
  apply List.map_congr_left
  intro d _
  congr 1
  have hdrop : ((events.filter (sqlFilter s e)).filterMap
      (fun ev => contributionOn (fs2 ev d) ev s e d))
      = events.filterMap (fun ev => contributionOn (fs2 ev d) ev s e d) := by
    apply filterMap_filter_of_none
    intro x _ hpx
    exact contributionOn_none_of_filtered _ hpx
  rw [hdrop]
  congr 1
  apply filterMap_congr_mem
  intro x hx
  exact contributionOn_fresh_irrel (h x hx).2 (fs1 x d) (fs2 x d) s e d

/-- C10 witness: the two backends agree on a concrete mixed store over the
January 2025 range, at concrete (and different) uuid-draw supplies. -/
theorem c10_witness :
    icsQuery (fun _ _ => 0) mixedStore
      (daysFromCivil 2025 1 1) (daysFromCivil 2025 1 31) =
      sqliteQuery (fun _ _ => 1) mixedStore
        (daysFromCivil 2025 1 1) (daysFromCivil 2025 1 31) 99 :=
  c10_backend_equivalence (fun _ _ => 0) (fun _ _ => 1) mixedStore
    (daysFromCivil 2025 1 1) (daysFromCivil 2025 1 31) 99 (by decide)

/-! ## C3 -/

/-- Shifting by zero days is the identity. -/
theorem shiftedBy_zero (e : Event) : shiftedBy e 0 = e := by
  cases e
  simp [shiftedBy]

/-- On a minute-aligned event that carries a uid the virtual copy is exactly
the day-shifted event (no uuid draw is consumed, no timestamp truncated). -/
theorem virtualOf_eq_shiftedBy {e : Event} (h : minuteAligned e)
    (hu : e.uid.isSome = true) (fr : Nat) (dd : Int) :
    virtualOf fr e dd = shiftedBy e dd := by
  obtain ⟨u, hu'⟩ := Option.isSome_iff_exists.mp hu
  obtain ⟨h1, h2, h3, h4⟩ := h
  cases e
  simp_all [virtualOf, shiftedBy]

/-- For a weekly event and a target on/after the anchor, occurrence reduces
to the weekday test. -/
theorem isOccurringOn_weekly {e : Event} (d a : Int)
    (hr : e.repeat_rule = "每周") (hda : a ≤ d) :
    isOccurringOn e d a = decide (weekday d = weekday a) := by
  unfold isOccurringOn
  rw [if_neg (by omega : ¬ d < a), hr]
  simp

/-- The contribution of a weekly event anchored before the query window to
an in-window day. -/
theorem contributionOn_weekly {e : Event} (fr : Nat) (s e' d : Int)
    (hr : e.repeat_rule = "每周") (ha : dateOf e.start_time ≤ s)
    (hs : s ≤ d) (hd : d ≤ e') :
    contributionOn fr e s e' d =
      if weekday d = weekday (dateOf e.start_time) then
        some (if d = dateOf e.start_time then e
              else virtualOf fr e (d - dateOf e.start_time))
      else none := by
  unfold contributionOn
  rw [if_neg (show ¬ e.repeat_rule = "无" by simp [hr])]
  rw [if_neg (show ¬ e' < dateOf e.start_time by omega)]
  rw [isOccurringOn_weekly d (dateOf e.start_time) hr (by omega)]
  by_cases hw : weekday d = weekday (dateOf e.start_time)
  · rw [if_pos (by simp [hw]), if_pos hw]
    split <;> rfl
  · rw [if_neg (by simp [hw]), if_neg hw]

/-- The bucket of an in-window day for a single-event store holding a weekly
event anchored before the window. -/
theorem bucket_weekly {e : Event} (freshSup : Event → Int → Nat) (s e' d : Int)
    (hr : e.repeat_rule = "每周") (ha : dateOf e.start_time ≤ s)
    (hs : s ≤ d) (hd : d ≤ e') :
    sortEvents ([e].filterMap fun ev =>
        contributionOn (freshSup ev d) ev s e' d) =
      if weekday d = weekday (dateOf e.start_time) then
        [if d = dateOf e.start_time then e
         else virtualOf (freshSup e d) e (d - dateOf e.start_time)]
      else [] := by
  rw [show ([e].filterMap fun ev => contributionOn (freshSup ev d) ev s e' d) =
      (contributionOn (freshSup e d) e s e' d).toList from by
    cases h : contributionOn (freshSup e d) e s e' d <;>
      simp [List.filterMap_cons, h]]
  rw [contributionOn_weekly (freshSup e d) s e' d hr ha hs hd]
  by_cases hw : weekday d = weekday (dateOf e.start_time)
  · rw [if_pos hw, if_pos hw]
    simp [sortEvents, insertEv]
  · rw [if_neg hw, if_neg hw]
    rfl

/-- `dateRangeAux` as a mapped `List.range`. -/
theorem dateRangeAux_eq_map (n : Nat) :
    ∀ s : Int, dateRangeAux s n = (List.range (n + 1)).map (fun j : Nat => s + (j : Int)) := by
  induction n with
  | zero =>
    intro s
    rw [show List.range 1 = [0] from rfl]
    simp [dateRangeAux]
  | succ k ih =>
    intro s
    show s :: dateRangeAux (s + 1) k = _
    rw [ih (s + 1)]
    conv_rhs => rw [List.range_succ_eq_map, List.map_cons, List.map_map]
    congr 1
    · simp
    · apply List.map_congr_left
      intro j _
      simp only [Function.comp_apply]
      omega

/-- Weekday agreement against a Nat-offset anchor is divisibility by 7. -/
theorem weekday_eq_iff (a : Int) (t j : Nat) :
    weekday (a + t + j) = weekday a ↔ (t + j) % 7 = 0 := by
  unfold weekday
  omega

/-- Any 28 consecutive offsets contain exactly 4 multiples of 7 past `t`. -/
theorem countP_mod7_range28 (t : Nat) :
    (List.range 28).countP (fun j => decide ((t + j) % 7 = 0)) = 4 := by
  have hcong : ∀ j ∈ List.range 28,
      (decide ((t + j) % 7 = 0)) = (decide ((t % 7 + j) % 7 = 0)) := by
    intro j _
    exact decide_eq_decide.mpr (by omega)
  rw [List.countP_eq_length_filter, List.filter_congr hcong,
    ← List.countP_eq_length_filter]
  have h7 : t % 7 < 7 := Nat.mod_lt _ (by norm_num)
  generalize t % 7 = r at h7 ⊢
  interval_cases r <;> decide

/-- C3 counterexample: the Standup event is weekly and anchored on a Monday,
and 2024-12-02..2024-12-29 is a 4-week (28-day) window, yet the query
returns 0 occurrences, not 4 — the window lies before the anchor and weekly
expansion only runs forward from the event's own start date. -/
theorem c3_counterexample :
    standupEvent.repeat_rule = "每周" ∧
    weekday (dateOf standupEvent.start_time) = 0 ∧
    daysFromCivil 2024 12 29 - daysFromCivil 2024 12 2 = 27 ∧
    ¬ (((expandEvents (fun _ _ => 0) [standupEvent] (daysFromCivil 2024 12 2)
        (daysFromCivil 2024 12 29)).filter fun p => ¬ p.2.isEmpty).length = 4) := by
  decide

/-- C3 (amended): for every weekly event anchored on a Monday with
minute-precision timestamps and an assigned uid, any 4-week window starting
on or after the anchor date yields — whatever uuid draws the expansion
makes — exactly 4 occurrences, one per week, all on Mondays, each with
`start_time` shifted by exactly 7k days from the origin; and the Standup
example over 2025-01-01..2025-01-31 (whose window starts before the anchor
but still contains 4 Mondays on/after it) yields occurrences exactly on
01-06, 01-13, 01-20 and 01-27, each with time-of-day 09:00 and advance
trigger instant 08:50 on the respective date. -/
theorem c3_weekly_window_amended :
    (∀ (freshSup : Event → Int → Nat) (e : Event) (s : Int),
      e.repeat_rule = "每周" → weekday (dateOf e.start_time) = 0 →
      dateOf e.start_time ≤ s → minuteAligned e → e.uid.isSome = true →
      (((expandEvents freshSup [e] s (s + 27)).filter
          fun p => ¬ p.2.isEmpty).length = 4 ∧
       ∀ p ∈ expandEvents freshSup [e] s (s + 27), p.2 ≠ [] →
         weekday p.1 = 0 ∧
         ∃ k : Nat, p.1 = dateOf e.start_time + 7 * k ∧
           p.2 = [shiftedBy e (7 * k)])) ∧
    (((expandEvents (fun _ _ => 0) [standupEvent] (daysFromCivil 2025 1 1)
        (daysFromCivil 2025 1 31)).filter fun p => ¬ p.2.isEmpty) =
      [(daysFromCivil 2025 1 6, [standupEvent]),
       (daysFromCivil 2025 1 13, [shiftedBy standupEvent 7]),
       (daysFromCivil 2025 1 20, [shiftedBy standupEvent 14]),
       (daysFromCivil 2025 1 27, [shiftedBy standupEvent 21])]) ∧
    (∀ p ∈ ([(daysFromCivil 2025 1 6, [standupEvent]),
       (daysFromCivil 2025 1 13, [shiftedBy standupEvent 7]),
       (daysFromCivil 2025 1 20, [shiftedBy standupEvent 14]),
       (daysFromCivil 2025 1 27, [shiftedBy standupEvent 21])] :
         List (Int × List Event)), ∀ ev ∈ p.2,
      timeOfDay ev.start_time = 9 * 3600 ∧
      calcTriggerDt ev = some (p.1 * 86400 + (8 * 3600 + 50 * 60))) := by
  refine ⟨?_, by decide, by decide⟩
  intro freshSup e s hr hw0 ha hal hu
  obtain ⟨t, ht⟩ := Int.le.dest ha
  constructor
  · have hrange : dateRange s (s + 27) =
        (List.range 28).map (fun j : Nat => s + (j : Int)) := by
      unfold dateRange
      rw [if_neg (by omega)]
      rw [show (s + 27 - s).toNat = 27 by omega]
      exact dateRangeAux_eq_map 27 s
    unfold expandEvents
    rw [hrange, ← List.countP_eq_length_filter, List.countP_map, List.countP_map]
    rw [List.countP_eq_length_filter,
      List.filter_congr (q := fun j : Nat => decide ((t + j) % 7 = 0)) ?_,
      ← List.countP_eq_length_filter]
    · exact countP_mod7_range28 t
    · intro j hj
      have hj28 : j < 28 := List.mem_range.mp hj
      simp only [Function.comp_apply]
      rw [bucket_weekly freshSup s (s + 27) (s + (j : Int)) hr ha
        (by omega) (by omega)]
      have hwiff : weekday (s + (j : Int)) = weekday (dateOf e.start_time) ↔
          (t + j) % 7 = 0 := by
        rw [show s + (j : Int) = dateOf e.start_time + t + j by omega]
        exact weekday_eq_iff (dateOf e.start_time) t j
      by_cases hw : weekday (s + (j : Int)) = weekday (dateOf e.start_time)
      · rw [if_pos hw]
        simp [hwiff.mp hw]
      · rw [if_neg hw]
        have hnc : ¬ (t + j) % 7 = 0 := fun hc => hw (hwiff.mpr hc)
        simp [hnc]
  · intro p hp hne
    unfold expandEvents at hp
    obtain ⟨d, hd, hpd⟩ := List.mem_map.mp hp
    rw [mem_dateRange] at hd
    subst hpd
    rw [bucket_weekly freshSup s (s + 27) d hr ha (by omega) (by omega)]
      at hne ⊢
    by_cases hw : weekday d = weekday (dateOf e.start_time)
    · have h7 : (d - dateOf e.start_time) % 7 = 0 := by
        unfold weekday at hw
        omega
      obtain ⟨k, hk⟩ : ∃ k : Nat, d - dateOf e.start_time = 7 * k :=
        ⟨((d - dateOf e.start_time) / 7).toNat, by omega⟩
      refine ⟨by rw [hw]; exact hw0, k, by omega, ?_⟩
      rw [if_pos hw]
      by_cases hdeq : d = dateOf e.start_time
      · have hk0 : k = 0 := by omega
        subst hk0
        rw [if_pos hdeq]
        norm_num [shiftedBy_zero]
      · rw [if_neg hdeq, virtualOf_eq_shiftedBy hal hu, hk]
    · rw [if_neg hw] at hne
      exact absurd rfl hne

/-- C3 witness: the amended general statement at the Standup event and the
4-week window starting exactly at the anchor. -/
theorem c3_witness :
    ((expandEvents (fun _ _ => 0) [standupEvent] (daysFromCivil 2025 1 6)
        (daysFromCivil 2025 1 6 + 27)).filter fun p => ¬ p.2.isEmpty).length = 4 :=
  (c3_weekly_window_amended.1 (fun _ _ => 0) standupEvent (daysFromCivil 2025 1 6)
    rfl (by decide) (by decide) (by decide) (by decide)).1

/-! ## C4 -/

/-- Every member of a Nat list is bounded by its max fold. -/
theorem mem_le_foldr_max {u : Nat} : ∀ {L : List Nat}, u ∈ L → u ≤ L.foldr max 0 := by
  intro L
  induction L with
  | nil => intro h; cases h
  | cons a t ih =>
    intro h
    rcases List.mem_cons.mp h with h | h
    · subst h
      exact le_max_left _ _
    · exact le_trans (ih h) (le_max_right _ _)

/-- A fresh uuid draw is strictly above every assigned uid. -/
theorem freshUid_gt {s : Store} {u : Nat} (h : u ∈ uids s.events) :
    u < freshUid s := by
  unfold freshUid
  have := mem_le_foldr_max h
  omega

/-- An assigned uid comes from some stored event. -/
theorem mem_uids {u : Nat} {l : List Event} :
    u ∈ uids l ↔ ∃ x ∈ l, x.uid = some u := by
  unfold uids
  rw [List.mem_filterMap]

/-- Lists whose uid projections agree have the same assigned uids. -/
theorem uids_congr : ∀ {l l' : List Event},
    l.map Event.uid = l'.map Event.uid → uids l = uids l' := by
  intro l
  induction l with
  | nil =>
    intro l' h
    cases l' with
    | nil => rfl
    | cons b t' => simp at h
  | cons a t ih =>
    intro l' h
    cases l' with
    | nil => simp at h
    | cons b t' =>
      simp only [List.map_cons, List.cons.injEq] at h
      unfold uids
      simp only [List.filterMap_cons]
      rw [h.1]
      have := ih h.2
      unfold uids at this
      rw [this]

/-- A map that leaves the uid of every element unchanged leaves the uid
projection unchanged. -/
theorem map_uid_of_preserve {f : Event → Event} (hf : ∀ x, (f x).uid = x.uid)
    (l : List Event) : (l.map f).map Event.uid = l.map Event.uid := by
  rw [List.map_map]
  exact List.map_congr_left fun x _ => hf x

/-- `uids` over an appended uid-less singleton. -/
theorem uids_append_none {l : List Event} {x : Event} (hx : x.uid = none) :
    uids (l ++ [x]) = uids l := by
  unfold uids
  rw [List.filterMap_append]
  simp [hx]

/-- `uids` over an appended singleton with an assigned uid. -/
theorem uids_append_some {l : List Event} {x : Event} {u : Nat}
    (hx : x.uid = some u) : uids (l ++ [x]) = uids l ++ [u] := by
  unfold uids
  rw [List.filterMap_append]
  simp [hx]

/-- The distinctness guarantee the source actually provides for a pair of
assigned uids: they differ — unless both are the literal string `"None"`
(`noneUidMarker`), which a sqlite→ics switch writes for every uid-less
shadow event, and which can therefore repeat.  True uuid4 draws (modelled
as values ≥ 1) satisfying this relation are genuinely distinct. -/
def uidCompat (a b : Nat) : Prop := a = b → a = noneUidMarker

/-- Distinct uids are compatible. -/
theorem uidCompat_of_ne {a b : Nat} (h : a ≠ b) : uidCompat a b :=
  fun hc => absurd hc h

/-- The `"None"` marker is compatible with anything on the left. -/
theorem uidCompat_marker_left {b : Nat} : uidCompat noneUidMarker b :=
  fun _ => rfl

/-- The `"None"` marker is compatible with anything on the right. -/
theorem uidCompat_marker_right {a : Nat} : uidCompat a noneUidMarker :=
  fun h => h

/-- Appending a uid strictly above all existing ones keeps compatibility. -/
theorem pairwise_append_fresh {L : List Nat} {u : Nat}
    (h : List.Pairwise uidCompat L) (hu : ∀ v ∈ L, v ≠ u) :
    List.Pairwise uidCompat (L ++ [u]) := by
  rw [List.pairwise_append]
  exact ⟨h, List.pairwise_singleton _ _, fun a ha b hb => by
    rw [List.mem_singleton] at hb
    subst hb
    exact uidCompat_of_ne (hu a ha)⟩

/-- `mapWithId` with a uid-preserving body preserves the uid projection. -/
theorem mapWithId_uid {f : Int → Event → Event}
    (hf : ∀ i e, (f i e).uid = e.uid) :
    ∀ (l : List Event) (i : Int),
      (mapWithId f i l).map Event.uid = l.map Event.uid := by
  intro l
  induction l with
  | nil => intro i; rfl
  | cons a t ih =>
    intro i
    show (f i a).uid :: (mapWithId f (i + 1) t).map Event.uid = _
    rw [hf, ih]
    rfl

/-- Every uid assigned after regeneration is an old assigned uid or a fresh
draw at or above the counter. -/
theorem regen_uid_mem : ∀ {l : List Event} {c u : Nat},
    u ∈ uids (regenUids c l) → u ∈ uids l ∨ c ≤ u := by
  intro l
  induction l with
  | nil => intro c u h; cases h
  | cons a t ih =>
    intro c u h
    cases ha : a.uid with
    | some v =>
      rw [show regenUids c (a :: t) = a :: regenUids c t from by
        simp [regenUids, ha]] at h
      unfold uids at h
      rw [List.filterMap_cons, ha] at h
      rcases List.mem_cons.mp h with h | h
      · subst h
        left
        rw [mem_uids]
        exact ⟨a, List.mem_cons_self _ _, ha⟩
      · rcases ih h with h | h
        · left
          unfold uids
          rw [List.filterMap_cons, ha]
          exact List.mem_cons_of_mem _ h
        · right
          exact h
    | none =>
      rw [show regenUids c (a :: t) = { a with uid := some c } :: regenUids (c + 1) t
        from by simp [regenUids, ha]] at h
      unfold uids at h
      rw [List.filterMap_cons] at h
      simp only at h
      rcases List.mem_cons.mp h with h | h
      · subst h
        right
        exact le_refl _
      · rcases ih h with h | h
        · left
          unfold uids
          rw [List.filterMap_cons, ha]
          exact h
        · right
          omega

/-- Regenerating the `None` uids with draws above every assigned uid keeps
the assigned uids pairwise compatible. -/
theorem regen_pairwise : ∀ {l : List Event} {c : Nat},
    List.Pairwise uidCompat (uids l) → (∀ u ∈ uids l, u < c) →
    List.Pairwise uidCompat (uids (regenUids c l)) := by
  intro l
  induction l with
  | nil => intro c _ _; exact List.Pairwise.nil
  | cons a t ih =>
    intro c hp hb
    cases ha : a.uid with
    | some v =>
      rw [show regenUids c (a :: t) = a :: regenUids c t from by
        simp [regenUids, ha]]
      have huc : uids (a :: t) = v :: uids t := by
        unfold uids
        rw [List.filterMap_cons, ha]
      rw [huc] at hp hb
      have hpt := (List.pairwise_cons.mp hp).2
      have hvt := (List.pairwise_cons.mp hp).1
      show List.Pairwise uidCompat (uids (a :: regenUids c t))
      have : uids (a :: regenUids c t) = v :: uids (regenUids c t) := by
        unfold uids
        rw [List.filterMap_cons, ha]
      rw [this]
      rw [List.pairwise_cons]
      constructor
      · intro u hu
        rcases regen_uid_mem hu with h | h
        · exact hvt u h
        · have := hb v (List.mem_cons_self _ _)
          exact uidCompat_of_ne (by omega)
      · exact ih hpt (fun u hu => hb u (List.mem_cons_of_mem _ hu))
    | none =>
      rw [show regenUids c (a :: t) = { a with uid := some c } :: regenUids (c + 1) t
        from by simp [regenUids, ha]]
      have huc : uids (a :: t) = uids t := by
        unfold uids
        rw [List.filterMap_cons, ha]
      rw [huc] at hp hb
      have : uids ({ a with uid := some c } :: regenUids (c + 1) t) =
          c :: uids (regenUids (c + 1) t) := by
        unfold uids
        rw [List.filterMap_cons]
      rw [this, List.pairwise_cons]
      constructor
      · intro u hu
        rcases regen_uid_mem hu with h | h
        · have := hb u h
          exact uidCompat_of_ne (by omega)
        · exact uidCompat_of_ne (by omega)
      · exact ih hp (fun u hu => by have := hb u hu; omega)

/-- The import loop preserves pairwise compatibility of assigned uids. -/
theorem importLoop_pairwise : ∀ (comps : List ParsedEvent) (s : Store)
    (seen : List (Option Nat)),
    List.Pairwise uidCompat (uids s.events) → (∀ b ∈ s.events, b.uid ∈ seen) →
    List.Pairwise uidCompat (uids (importLoop s seen comps).1.events) := by
  intro comps
  induction comps with
  | nil => intro s seen hp _; exact hp
  | cons c rest ih =>
    intro s seen hp hseen
    by_cases hmem : (eventOfParsed c (freshUid s)).uid ∈ seen
    · rw [show importLoop s seen (c :: rest) = importLoop s seen rest from by
        rw [importLoop]; simp [hmem]]
      exact ih s seen hp hseen
    · rw [show (importLoop s seen (c :: rest)).1 =
          (importLoop (addEvent s (eventOfParsed c (freshUid s))).1
            ((eventOfParsed c (freshUid s)).uid :: seen) rest).1 from by
        rw [importLoop]; simp [hmem]]
      have hev := addEvent_events s (eventOfParsed c (freshUid s))
      apply ih
      · rw [hev]
        rw [uids_append_some (u := (eventOfParsed c (freshUid s)).uid.getD 0)
          (by rfl)]
        apply pairwise_append_fresh hp
        intro v hv hvc
        apply hmem
        rw [mem_uids] at hv
        obtain ⟨x, hx, hxu⟩ := hv
        have := hseen x hx
        rw [hxu] at this
        rw [show (eventOfParsed c (freshUid s)).uid = some v from by
          rw [show (eventOfParsed c (freshUid s)).uid =
            some ((eventOfParsed c (freshUid s)).uid.getD 0) from rfl, hvc]]
        exact this
      · intro b hb
        rw [hev] at hb
        rcases List.mem_append.mp hb with h | h
        · exact List.mem_cons_of_mem _ (hseen b h)
        · rw [List.mem_singleton] at h
          subst h
          exact List.mem_cons_self _ _

/-- The lrt-stamping pass of `snooze` leaves assigned uids unchanged. -/
theorem uids_stamp_lrt (l : List Event) (eid : Int) (now : Int) :
    uids (replaceFirst (fun x => { x with last_reminded_time := some now })
      eid l) = uids l := by
  apply uids_congr
  apply replaceFirst_map_uid
  intro x
  rfl

/-- The in-place absolute-snooze pass leaves assigned uids unchanged. -/
theorem uids_stamp_absolute (l : List Event) (eid minutes now : Int) :
    uids (replaceFirst
      (fun x =>
        { x with
          reminder_enabled := true
          reminder_type := "absolute"
          absolute_time := some (truncMin now + minutes * 60)
          last_reminded_time := none })
      eid l) = uids l := by
  apply uids_congr
  apply replaceFirst_map_uid
  intro x
  rfl

/-- Payload updates leave assigned uids unchanged. -/
theorem uids_opUpdate (s : Store) (eid : Int) (p : Payload) :
    uids (opUpdate s eid p).events = uids s.events := by
  apply uids_congr
  apply replaceFirst_map_uid
  intro x
  rfl

/-- Finish-flag updates leave assigned uids unchanged. -/
theorem uids_opMarkFinished (s : Store) (eid : Int) (fin : Bool) :
    uids (opMarkFinished s eid fin).events = uids s.events := by
  apply uids_congr
  apply replaceFirst_map_uid
  intro x
  rfl

/-- The ics→sqlite reinsertion (before uid regeneration) leaves assigned
uids unchanged. -/
theorem uids_switch_sqlite (s : Store) :
    uids (mapWithId
      (fun i e =>
        { e with
          id := i
          start_time := truncMin e.start_time
          end_time := truncMin e.end_time
          absolute_time := e.absolute_time.map truncMin
          last_reminded_time := e.last_reminded_time.map truncMin })
      (s.dbSeq + 1) s.events)
    = uids s.events := by
  apply uids_congr
  apply mapWithId_uid
  intro i e
  rfl

/-- The uids after an indexed map that assigns every event its `getD`-marker
uid are exactly the per-event `getD`-markers. -/
theorem uids_mapWithId_getD {f : Int → Event → Event}
    (hf : ∀ i e, (f i e).uid = some (e.uid.getD noneUidMarker)) :
    ∀ (l : List Event) (i : Int),
      uids (mapWithId f i l) = l.map fun e => e.uid.getD noneUidMarker := by
  intro l
  induction l with
  | nil => intro i; rfl
  | cons a t ih =>
    intro i
    show uids (f i a :: mapWithId f (i + 1) t) = _
    unfold uids
    rw [List.filterMap_cons, hf]
    dsimp only
    rw [List.map_cons]
    congr 1
    exact ih (i + 1)

/-- The sqlite→ics rewrite-and-reload turns every stored uid into its
`getD`-marker form (`None` becomes the literal string `"None"`). -/
theorem uids_switch_ics (s : Store) :
    uids (mapWithId
      (fun i e =>
        { e with
          id := i
          uid := some (e.uid.getD noneUidMarker)
          priority := "中"
          absolute_time := e.absolute_time.map truncMin
          last_reminded_time := e.last_reminded_time.map truncMin })
      1 s.events)
    = s.events.map fun e => e.uid.getD noneUidMarker := by
  apply uids_mapWithId_getD
  intro i e
  rfl

/-- Collapsing `None` uids to the marker preserves pairwise compatibility:
marker pairs are compatible by definition, and assigned pairs were
compatible before. -/
theorem pairwise_uidCompat_getD : ∀ {l : List Event},
    List.Pairwise uidCompat (uids l) →
    List.Pairwise uidCompat (l.map fun e => e.uid.getD noneUidMarker) := by
  intro l
  induction l with
  | nil => intro _; exact List.Pairwise.nil
  | cons a t ih =>
    intro hp
    simp only [List.map_cons, List.pairwise_cons]
    cases ha : a.uid with
    | some v =>
      have huc : uids (a :: t) = v :: uids t := by
        unfold uids
        rw [List.filterMap_cons, ha]
      rw [huc, List.pairwise_cons] at hp
      constructor
      · intro u hu
        obtain ⟨x, hx, hxu⟩ := List.mem_map.mp hu
        have hvq : uidCompat v (x.uid.getD noneUidMarker) := by
          cases hxu' : x.uid with
          | some w =>
            have hw : w ∈ uids t := mem_uids.mpr ⟨x, hx, hxu'⟩
            exact hp.1 w hw
          | none =>
            exact uidCompat_marker_right
        rw [← hxu]
        exact hvq
      · exact ih hp.2
    | none =>
      have huc : uids (a :: t) = uids t := by
        unfold uids
        rw [List.filterMap_cons, ha]
      rw [huc] at hp
      constructor
      · intro u _
        exact uidCompat_marker_left
      · exact ih hp

/-- Assigned uids stay pairwise compatible — distinct unless both are the
sqlite→ics `"None"` marker — in every reachable store. -/
theorem uids_pairwise_of_reachable : ∀ s : Store, Reachable s →
    List.Pairwise uidCompat (uids s.events) := by
  intro s h
  induction h with
  | init mode => exact List.Pairwise.nil
  | add base _ ih =>
    rename_i s' _
    have hev := addEvent_events s' { base with uid := some (freshUid s') }
    unfold opAdd
    rw [hev, uids_append_some (u := freshUid s') rfl]
    apply pairwise_append_fresh ih
    intro v hv
    have := freshUid_gt hv
    omega
  | update eid p _ ih =>
    rename_i s' _
    rw [uids_opUpdate]
    exact ih
  | markFinished eid fin _ ih =>
    rename_i s' _
    rw [uids_opMarkFinished]
    exact ih
  | del eid _ ih =>
    rename_i s' _
    unfold opDelete
    have hsub : (uids (s'.events.filter fun x => x.id ≠ eid)).Sublist
        (uids s'.events) := by
      unfold uids
      exact (List.filter_sublist s'.events).filterMap Event.uid
    exact ih.sublist hsub
  | snooze eid minutes now _ ih =>
    rename_i s' _
    unfold snoozeOp
    cases hfind : s'.events.find? (fun x => x.id = eid) with
    | none => exact ih
    | some e =>
      dsimp only
      split
      · rw [uids_stamp_lrt, addEvent_events, uids_append_none rfl]
        exact ih
      · rw [uids_stamp_absolute]
        exact ih
  | switch newMode _ ih =>
    rename_i s' _
    unfold switchStorageMode
    split
    · exact ih
    · split
      · dsimp only
        apply regen_pairwise
        · rw [uids_switch_sqlite]
          exact ih
        · intro u hu
          rw [uids_switch_sqlite] at hu
          exact freshUid_gt hu
      · dsimp only
        rw [uids_switch_ics]
        exact pairwise_uidCompat_getD ih
  | importIcs parsed _ ih =>
    rename_i s' _
    cases parsed with
    | none => exact ih
    | some comps =>
      exact importLoop_pairwise comps s' _ ih
        (fun b hb => List.mem_map_of_mem _ hb)

/-- Projection-level uid preservation of the snooze lrt stamp. -/
theorem map_uid_stamp_lrt (l : List Event) (eid : Int) (now : Int) :
    (replaceFirst (fun x => { x with last_reminded_time := some now })
      eid l).map Event.uid = l.map Event.uid := by
  apply replaceFirst_map_uid
  intro x
  rfl

/-- Projection-level uid preservation of the in-place absolute snooze. -/
theorem map_uid_stamp_absolute (l : List Event) (eid minutes now : Int) :
    (replaceFirst
      (fun x =>
        { x with
          reminder_enabled := true
          reminder_type := "absolute"
          absolute_time := some (truncMin now + minutes * 60)
          last_reminded_time := none })
      eid l).map Event.uid = l.map Event.uid := by
  apply replaceFirst_map_uid
  intro x
  rfl

/-- An indexed map whose body keeps every assigned uid assigned preserves
each event's assigned uid pointwise. -/
theorem forall2_uid_mapWithId {f : Int → Event → Event}
    (hf : ∀ i e u, e.uid = some u → (f i e).uid = some u) :
    ∀ (l : List Event) (i : Int),
      List.Forall₂ (fun a b => ∀ u, a.uid = some u → b.uid = some u)
        l (mapWithId f i l) := by
  intro l
  induction l with
  | nil => intro i; exact List.Forall₂.nil
  | cons a t ih =>
    intro i
    show List.Forall₂ _ (a :: t) (f i a :: mapWithId f (i + 1) t)
    exact List.Forall₂.cons (fun u hu => hf i a u hu) (ih (i + 1))

/-- Regeneration after an indexed uid-preserving map preserves each event's
assigned uid pointwise. -/
theorem forall2_uid_regen_mapWithId {f : Int → Event → Event}
    (hf : ∀ i e, (f i e).uid = e.uid) :
    ∀ (l : List Event) (c : Nat) (i : Int),
      List.Forall₂ (fun a b => ∀ u, a.uid = some u → b.uid = some u)
        l (regenUids c (mapWithId f i l)) := by
  intro l
  induction l with
  | nil => intro c i; exact List.Forall₂.nil
  | cons a t ih =>
    intro c i
    show List.Forall₂ _ (a :: t) (regenUids c (f i a :: mapWithId f (i + 1) t))
    cases hu : (f i a).uid with
    | some v =>
      rw [show regenUids c (f i a :: mapWithId f (i + 1) t)
          = f i a :: regenUids c (mapWithId f (i + 1) t) from by
        simp [regenUids, hu]]
      exact List.Forall₂.cons (fun u h => by rw [hf]; exact h) (ih c (i + 1))
    | none =>
      rw [show regenUids c (f i a :: mapWithId f (i + 1) t)
          = { f i a with uid := some c } :: regenUids (c + 1) (mapWithId f (i + 1) t)
          from by simp [regenUids, hu]]
      refine List.Forall₂.cons (fun u h => ?_) (ih (c + 1) (i + 1))
      rw [hf i a] at hu
      rw [h] at hu
      cases hu

/-- C4 counterexample: after a single reachable snooze of a recurring event,
the stored shadow event has no uid at all — `copy.deepcopy` bypasses
`Event.__init__`, `snooze` sets `uid = None`, and `add_event` never draws a
replacement — so not every stored event has a uid string generated at its
creation. -/
theorem c4_counterexample :
    ((snoozeOp (opAdd (initStore "ics") standupEvent) 1 10 secondsInstant).events.all
      (fun e => e.uid.isSome)) = false := by
  decide

/-- A reachable store in which two distinct stored events carry the same
assigned uid: snoozing a recurring event twice leaves two uid-less shadow
events in a sqlite store, and switching to ics serializes both `None` uids
as the same literal string `"None"` and reloads them as assigned uids.  This
is why pairwise *distinctness* of assigned uids fails and only
`uidCompat` — distinct unless both are the marker — is invariant. -/
theorem reachable_duplicate_noneUid :
    Reachable (switchStorageMode
      (snoozeOp (snoozeOp (opAdd (initStore "sqlite") standupEvent)
        1 10 secondsInstant) 1 10 secondsInstant) "ics") ∧
    uids (switchStorageMode
      (snoozeOp (snoozeOp (opAdd (initStore "sqlite") standupEvent)
        1 10 secondsInstant) 1 10 secondsInstant) "ics").events = [1, 0, 0] ∧
    ¬ List.Pairwise (· ≠ ·) (uids (switchStorageMode
      (snoozeOp (snoozeOp (opAdd (initStore "sqlite") standupEvent)
        1 10 secondsInstant) 1 10 secondsInstant) "ics").events) := by
  refine ⟨?_, by decide, by decide⟩
  exact Reachable.switch "ics"
    (Reachable.snooze 1 10 secondsInstant
      (Reachable.snooze 1 10 secondsInstant
        (Reachable.add standupEvent (Reachable.init "sqlite"))))

/-- C4 (amended): in every reachable store the assigned uids are pairwise
distinct except that the literal `"None"` uid (written by a sqlite→ics
switch for uid-less shadow events) may repeat; payload updates never change
an event's uid; snooze leaves every stored event's uid unchanged and adds
at most one new event, which carries no uid until it is next reloaded from
storage; and migration preserves every assigned uid (absent uids become
fresh draws on the ics→sqlite path and the literal `"None"` on the
sqlite→ics path). -/
theorem c4_uid_amended :
    (∀ s : Store, Reachable s → List.Pairwise uidCompat (uids s.events)) ∧
    (∀ (e : Event) (p : Payload), (updateFromPayload e p).uid = e.uid) ∧
    (∀ (s : Store) (eid minutes : Int) (now : Int),
      (snoozeOp s eid minutes now).events.map Event.uid = s.events.map Event.uid ∨
      (snoozeOp s eid minutes now).events.map Event.uid =
        s.events.map Event.uid ++ [none]) ∧
    (∀ (s : Store) (newMode : String),
      List.Forall₂ (fun a b => ∀ u, a.uid = some u → b.uid = some u)
        s.events (switchStorageMode s newMode).events) := by
  refine ⟨uids_pairwise_of_reachable, fun e p => rfl, ?_, ?_⟩
  · intro s eid minutes now
    unfold snoozeOp
    cases hfind : s.events.find? (fun x => x.id = eid) with
    | none => exact Or.inl rfl
    | some e =>
      dsimp only
      split
      · right
        rw [map_uid_stamp_lrt, addEvent_events, List.map_append]
        rfl
      · left
        rw [map_uid_stamp_absolute]
  · intro s newMode
    unfold switchStorageMode
    split
    · exact List.forall₂_same.mpr fun x _ u hu => hu
    · split
      · dsimp only
        apply forall2_uid_regen_mapWithId
        intro i e
        rfl
      · dsimp only
        apply forall2_uid_mapWithId
        intro i e u hu
        show some (e.uid.getD noneUidMarker) = some u
        rw [hu]
        rfl

/-- C4 witness: compatibility of assigned uids at a concrete reachable
store. -/
theorem c4_witness :
    List.Pairwise uidCompat (uids (opAdd (initStore "ics") standupEvent).events) :=
  c4_uid_amended.1 _ (Reachable.add standupEvent (Reachable.init "ics"))

end DeskCalendar
